import Mathlib

/-
Verification development for the facility-location PSO solver in
src/optimization/facility_pso.py.

Modelling conventions (shallow embedding):
  * All numeric quantities are rationals (the Python code computes in IEEE
    floating point; the claims under study are about the algorithmic
    structure, which the exact-arithmetic model captures).
  * haversine_distance is a transcendental floating-point function; it is
    abstracted as an explicit parameter
    dist : (customer lat, lon) -> (facility lat, lon) -> rational.
  * np.std is sqrt of the population variance; the (exactly computed)
    population variance is passed to an abstract parameter sqrt2 modelling
    the square-root map, so the standard-deviation penalty is
    sqrt2 (popVariance usage_values) * 100 exactly as in the source.
  * Python dicts iterated in insertion order become association lists;
    the dict comprehension facility_usage = \x7bi: 0 for i in range(n)\x7d becomes
    a total function Nat -> Rat that is 0 outside 0..n-1 (only keys < n are
    ever accessed, exactly as in the source).
  * numpy arrays indexed by particle number become functions Nat -> Pos;
    in-place writes arr[i] = v become pointwise functional updates.
  * np.random draws are parameters (initial particle positions, initial
    velocities, and the per-iteration per-particle pair of rand(n_facilities, 2)
    matrices for the cognitive and social terms).
  * The wall-clock check time.time() - start_time > max_run_time_seconds at
    the top of iteration k is a parameter timeUp : Nat -> Bool.
  * A position (one particle) is the list of its facility (lat, lon) pairs.
-/

/-- Position of one particle: the list of facility (latitude, longitude) pairs. -/
abbrev Pos := List (ℚ × ℚ)

/-- One row of the customers DataFrame: CustomerID, Demand, Latitude, Longitude. -/
structure Customer where
  id : String
  demand : ℚ
  lat : ℚ
  lon : ℚ

/-- Population variance of a list of rationals; np.std is the square root of
this quantity. -/
def popVariance (l : List ℚ) : ℚ :=
  ((l.map (fun v => (v - l.sum / (l.length : ℚ)) ^ 2)).sum) / (l.length : ℚ)

/-- Stable insertion of index i into an index list already sorted by the key
list ds: i goes after every index with a key ≤ its own, reproducing the
stable ascending sort of Python's sorted(range(n), key=...). -/
def insertByDist (ds : List ℚ) (i : Nat) : List Nat → List Nat
  | [] => [i]
  | j :: t => if ds.getD j 0 ≤ ds.getD i 0 then j :: insertByDist ds i t else i :: j :: t

/-- sorted(range(len(ds)), key=lambda k: ds[k]) : indices of ds sorted
ascending by value, stable on ties. -/
def sortIdx (ds : List ℚ) : List Nat :=
  (List.range ds.length).foldl (fun acc i => insertByDist ds i acc) []

/-- The inner assignment loop of calculate_total_cost: walk the facility
indices in the given (distance-sorted) order and return the first facility
whose current usage plus the demand does not exceed the capacity. -/
def tryAssign (d cap : ℚ) (usage : Nat → ℚ) : List Nat → Option Nat
  | [] => none
  | f :: rest => if usage f + d ≤ cap then some f else tryAssign d cap usage rest

/-- Mutable state of the customer loop in calculate_total_cost:
facility_usage, the running total_cost, and the assignments mapping
(kept as a list in customer-insertion order; Python dict keys are distinct). -/
structure CostState where
  usage : Nat → ℚ
  cost : ℚ
  assigns : List (String × Option Nat)

/-- distances = [haversine_distance(c_lat, c_lon, f_lat, f_lon) for each facility]. -/
def distancesFor (dist : ℚ × ℚ → ℚ × ℚ → ℚ) (facLocs : List (ℚ × ℚ)) (c : ℚ × ℚ) : List ℚ :=
  facLocs.map (fun fl => dist c fl)

/-- Which facility (if any) a customer with coordinates and demand cd gets,
given the current usage: first fitting facility in distance-sorted order. -/
def facChoice (dist : ℚ × ℚ → ℚ × ℚ → ℚ) (facLocs : List (ℚ × ℚ))
    (coords : String → ℚ × ℚ) (cap : ℚ) (usage : Nat → ℚ) (cd : String × ℚ) : Option Nat :=
  tryAssign cd.2 cap usage (sortIdx (distancesFor dist facLocs (coords cd.1)))

/-- Body of the per-customer loop of calculate_total_cost. -/
def processCustomer (dist : ℚ × ℚ → ℚ × ℚ → ℚ) (facLocs : List (ℚ × ℚ))
    (coords : String → ℚ × ℚ) (cap cpk upl : ℚ) (st : CostState) (cd : String × ℚ) : CostState :=
  let distances := distancesFor dist facLocs (coords cd.1)
  match facChoice dist facLocs coords cap st.usage cd with
  | some f =>
      { usage := fun j => if j = f then st.usage f + cd.2 else st.usage j
        cost := st.cost + distances.getD f 0 * cpk * ((⌈cd.2 / upl⌉ : ℤ) : ℚ)
        assigns := st.assigns ++ [(cd.1, some f)] }
  | none =>
      { usage := st.usage
        cost := st.cost + 1000000
        assigns := st.assigns ++ [(cd.1, none)] }

/-- calculate_total_cost from facility_pso.py. Returns the total cost and the
assignments mapping (customer, facility index or None), in customer order.
The customers argument is accepted and, as in the source, never used. -/
def calculate_total_cost (dist : ℚ × ℚ → ℚ × ℚ → ℚ) (sqrt2 : ℚ → ℚ)
    (facility_locations : List (ℚ × ℚ)) (customers : List String)
    (demands : List (String × ℚ)) (customer_coords : String → ℚ × ℚ)
    (facility_capacity fixed_cost cost_per_km units_per_load : ℚ) :
    ℚ × List (String × Option Nat) :=
  let st0 : CostState := ⟨fun _ => 0, 0, []⟩
  let st := demands.foldl
    (processCustomer dist facility_locations customer_coords facility_capacity
      cost_per_km units_per_load) st0
  let usage_values := (List.range facility_locations.length).map st.usage
  let cost2 := usage_values.foldl (fun c u => if 0 < u then c + fixed_cost else c) st.cost
  let total :=
    if 1 < usage_values.length ∧ 1 < usage_values.dedup.length then
      cost2 + sqrt2 (popVariance usage_values) * 100
    else cost2
  (total, st.assigns)

/-- Trace of the customer loop: each demands entry paired with the facility
choice made for it, threading the usage updates exactly as the loop does. -/
def assignTrace (dist : ℚ × ℚ → ℚ × ℚ → ℚ) (facLocs : List (ℚ × ℚ))
    (coords : String → ℚ × ℚ) (cap : ℚ) :
    (Nat → ℚ) → List (String × ℚ) → List ((String × ℚ) × Option Nat)
  | _, [] => []
  | usage, cd :: rest =>
    match facChoice dist facLocs coords cap usage cd with
    | some f =>
        (cd, some f) ::
          assignTrace dist facLocs coords cap
            (fun j => if j = f then usage f + cd.2 else usage j) rest
    | none => (cd, none) :: assignTrace dist facLocs coords cap usage rest

/-- Final facility_usage function after the customer loop has run. -/
def usageAfter (dist : ℚ × ℚ → ℚ × ℚ → ℚ) (facLocs : List (ℚ × ℚ))
    (coords : String → ℚ × ℚ) (cap : ℚ) :
    (Nat → ℚ) → List (String × ℚ) → (Nat → ℚ)
  | usage, [] => usage
  | usage, cd :: rest =>
    match facChoice dist facLocs coords cap usage cd with
    | some f =>
        usageAfter dist facLocs coords cap
          (fun j => if j = f then usage f + cd.2 else usage j) rest
    | none => usageAfter dist facLocs coords cap usage rest

/-- Cost contribution of one customer-loop step: the transport cost of its
assigned load, or the 1,000,000 penalty if it stayed unassigned. -/
def contribCost (dist : ℚ × ℚ → ℚ × ℚ → ℚ) (facLocs : List (ℚ × ℚ))
    (coords : String → ℚ × ℚ) (cpk upl : ℚ) (e : (String × ℚ) × Option Nat) : ℚ :=
  match e.2 with
  | some f => (distancesFor dist facLocs (coords e.1.1)).getD f 0 * cpk * ((⌈e.1.2 / upl⌉ : ℤ) : ℚ)
  | none => 1000000

/-- Transport part only of a loop step (0 for an unassigned customer). -/
def transportCost (dist : ℚ × ℚ → ℚ × ℚ → ℚ) (facLocs : List (ℚ × ℚ))
    (coords : String → ℚ × ℚ) (cpk upl : ℚ) (e : (String × ℚ) × Option Nat) : ℚ :=
  match e.2 with
  | some f => (distancesFor dist facLocs (coords e.1.1)).getD f 0 * cpk * ((⌈e.1.2 / upl⌉ : ℤ) : ℚ)
  | none => 0

/-- Final facility_usage after running the whole customer loop from the
all-zero initial usage. -/
def finalUsage (dist : ℚ × ℚ → ℚ × ℚ → ℚ) (facLocs : List (ℚ × ℚ))
    (coords : String → ℚ × ℚ) (cap : ℚ) (demands : List (String × ℚ)) : Nat → ℚ :=
  usageAfter dist facLocs coords cap (fun _ => 0) demands

/-- usage_values = list(facility_usage.values()) after the customer loop. -/
def finalUsageValues (dist : ℚ × ℚ → ℚ × ℚ → ℚ) (facLocs : List (ℚ × ℚ))
    (coords : String → ℚ × ℚ) (cap : ℚ) (demands : List (String × ℚ)) : List ℚ :=
  (List.range facLocs.length).map (finalUsage dist facLocs coords cap demands)

/- ---------------------------------------------------------------------------
PSO part of the file: optimize_facility_locations_pso.
--------------------------------------------------------------------------- -/

/-- Non-data parameters of one PSO run: the modelled floating-point services
(dist, sqrt2), the random streams, the wall-clock predicate, the problem data
and the fixed coefficients. -/
structure PSOParams where
  dist : ℚ × ℚ → ℚ × ℚ → ℚ
  sqrt2 : ℚ → ℚ
  rand : Nat → Nat → Pos × Pos
  timeUp : Nat → Bool
  df : List Customer
  facility_capacity : ℚ
  fixed_cost : ℚ
  cost_per_km : ℚ
  units_per_load : ℚ
  nParticles : Nat
  c1 : ℚ
  c2 : ℚ

/-- customers = customers_df['CustomerID'].tolist(). -/
def dfCustomers (df : List Customer) : List String := df.map (fun c => c.id)

/-- Python dict insertion: overwrite in place if the key is present, else
append; used to model dict(zip(keys, values)). -/
def dictUpsert {β : Type} (m : List (String × β)) (k : String) (v : β) : List (String × β) :=
  if m.any (fun p => p.1 = k) then m.map (fun p => if p.1 = k then (k, v) else p)
  else m ++ [(k, v)]

/-- dict built from an association list with Python semantics: first-insertion
key order, last value wins. -/
def pyDict {β : Type} (l : List (String × β)) : List (String × β) :=
  l.foldl (fun m p => dictUpsert m p.1 p.2) []

/-- demands = dict(zip(customers_df['CustomerID'], customers_df['Demand'])). -/
def dfDemands (df : List Customer) : List (String × ℚ) :=
  pyDict (df.map (fun c => (c.id, c.demand)))

/-- customer_coords as a lookup function (the source only ever looks up keys
that are present, so the default is never exercised). -/
def dfCoords (df : List Customer) : String → ℚ × ℚ := fun c =>
  ((pyDict (df.map (fun x => (x.id, (x.lat, x.lon))))).lookup c).getD (0, 0)

/-- Minimum of a rational list (0 on the empty list, which the claims avoid). -/
def minD : List ℚ → ℚ
  | [] => 0
  | a :: t => t.foldl min a

/-- Maximum of a rational list (0 on the empty list, which the claims avoid). -/
def maxD : List ℚ → ℚ
  | [] => 0
  | a :: t => t.foldl max a

/-- lat_bounds lower end: customers_df['Latitude'].min(). -/
def latMin (df : List Customer) : ℚ := minD (df.map (fun c => c.lat))

/-- lat_bounds upper end: customers_df['Latitude'].max(). -/
def latMax (df : List Customer) : ℚ := maxD (df.map (fun c => c.lat))

/-- lon_bounds lower end: customers_df['Longitude'].min(). -/
def lonMin (df : List Customer) : ℚ := minD (df.map (fun c => c.lon))

/-- lon_bounds upper end: customers_df['Longitude'].max(). -/
def lonMax (df : List Customer) : ℚ := maxD (df.map (fun c => c.lon))

/-- Fitness of a position: first component of calculate_total_cost on the
run's problem data. -/
def costOfP (P : PSOParams) (p : Pos) : ℚ :=
  (calculate_total_cost P.dist P.sqrt2 p (dfCustomers P.df) (dfDemands P.df) (dfCoords P.df)
    P.facility_capacity P.fixed_cost P.cost_per_km P.units_per_load).1

/-- Mutable state of the PSO main loop. The field gbest models the Python
variable global_best_position faithfully at the numpy object level:
global_best_position = personal_best_positions[global_best_index] at
initialization is a VIEW into the personal-best array (Sum.inl index), while
the end-of-iteration update global_best_position = np.copy(...) rebinds it to
a detached copy (Sum.inr position). -/
structure PSOState where
  particles : Nat → Pos
  velocities : Nat → Pos
  pbestPos : Nat → Pos
  pbestScore : Nat → ℚ
  gbest : Sum Nat Pos
  gbestScore : ℚ
  inertia : ℚ
  history : List (Nat × ℚ)
  completed : Nat

/-- Dereference global_best_position: a view reads the current content of the
personal-best array slot, a copy is its own data. -/
def gbestPosOf (st : PSOState) : Pos :=
  match st.gbest with
  | Sum.inl i => st.pbestPos i
  | Sum.inr p => p

/-- Componentwise sum of two coordinate arrays. -/
def vAdd (a b : Pos) : Pos := a.zipWith (fun p q => (p.1 + q.1, p.2 + q.2)) b

/-- Componentwise difference of two coordinate arrays. -/
def vSub (a b : Pos) : Pos := a.zipWith (fun p q => (p.1 - q.1, p.2 - q.2)) b

/-- Hadamard (elementwise) product of two coordinate arrays. -/
def vHad (a b : Pos) : Pos := a.zipWith (fun p q => (p.1 * q.1, p.2 * q.2)) b

/-- Scalar times coordinate array. -/
def vScale (c : ℚ) (a : Pos) : Pos := a.map (fun p => (c * p.1, c * p.2))

/-- np.clip(x, [laLo, loLo], [laHi, loHi]) componentwise:
min(max(component, lower), upper). -/
def clampPos (laLo laHi loLo loHi : ℚ) (a : Pos) : Pos :=
  a.map (fun p => (min (max p.1 laLo) laHi, min (max p.2 loLo) loHi))

/-- np.argmin over the first n entries of a score function: first index
achieving the minimum. -/
def argminIdx (s : Nat → ℚ) (n : Nat) : Nat :=
  (List.range n).foldl (fun b j => if s j < s b then j else b) 0

/-- Body of the inner particle loop of one PSO iteration (iteration k,
particle i). The global best is dereferenced HERE, against the current
personal-best array: while gbest is still the initialization-time view, a
personal-best overwrite earlier in the same sweep is visible. -/
def particleStep (P : PSOParams) (k : Nat) (s : PSOState) (i : Nat) : PSOState :=
  let g := gbestPosOf s
  let r := P.rand k i
  let x := s.particles i
  let v1 := vAdd (vScale s.inertia (s.velocities i))
    (vAdd (vHad (vScale P.c1 r.1) (vSub (s.pbestPos i) x))
      (vHad (vScale P.c2 r.2) (vSub g x)))
  let x1 := clampPos (latMin P.df) (latMax P.df) (lonMin P.df) (lonMax P.df) (vAdd x v1)
  let sc := costOfP P x1
  if sc < s.pbestScore i then
    { s with particles := fun j => if j = i then x1 else s.particles j
             velocities := fun j => if j = i then v1 else s.velocities j
             pbestPos := fun j => if j = i then x1 else s.pbestPos j
             pbestScore := fun j => if j = i then sc else s.pbestScore j }
  else
    { s with particles := fun j => if j = i then x1 else s.particles j
             velocities := fun j => if j = i then v1 else s.velocities j }

/-- The per-iteration sweep over all particles (for i in range(n_particles)). -/
def sweep (P : PSOParams) (k : Nat) (st : PSOState) : PSOState :=
  (List.range P.nParticles).foldl (particleStep P k) st

/-- One full iteration of the PSO main loop: sweep, global-best update (to a
detached np.copy), inertia decay, history append, completed counter. -/
def iterStep (P : PSOParams) (k : Nat) (st : PSOState) : PSOState :=
  let st1 := sweep P k st
  let bi := argminIdx st1.pbestScore P.nParticles
  let st2 :=
    if st1.pbestScore bi < st1.gbestScore then
      { st1 with gbest := Sum.inr (st1.pbestPos bi), gbestScore := st1.pbestScore bi }
    else st1
  { st2 with inertia := max 0.4 (st2.inertia * 0.99)
             history := st2.history ++ [(k, st2.gbestScore)]
             completed := k + 1 }

/-- The main loop: fuel counts the remaining range(n_iterations) entries, k is
the current iteration index; the wall-clock check at the top of the body
breaks out of the loop. -/
def psoLoop (tu : Nat → Bool) (step : Nat → PSOState → PSOState) :
    Nat → Nat → PSOState → PSOState
  | 0, _, st => st
  | Nat.succ n, k, st => if tu k then st else psoLoop tu step n (k + 1) (step k st)

/-- facility_locations result records, FacilityID 'FAC{i+1}' by enumeration. -/
def mkFacLocs : Nat → Pos → List (String × ℚ × ℚ)
  | _, [] => []
  | i, q :: rest => ("FAC" ++ toString (i + 1), q.1, q.2) :: mkFacLocs (i + 1) rest

/-- Structured result of optimize_facility_locations_pso (total_time, a pure
wall-clock reading, is not modelled; history rows carry iteration index and
best_score, their time column being wall clock as well). -/
structure PSOResult where
  status : String
  total_cost : ℚ
  facility_locations : List (String × ℚ × ℚ)
  assignments : List (String × Option String × ℚ)
  history : List (Nat × ℚ)
  completed_iterations : Nat

/-- Bundle the run parameters (used by optimize_facility_locations_pso and by
the theorems that speak about its internals). -/
def mkP (dist : ℚ × ℚ → ℚ × ℚ → ℚ) (sqrt2 : ℚ → ℚ) (rand : Nat → Nat → Pos × Pos)
    (timeUp : Nat → Bool) (df : List Customer)
    (facility_capacity fixed_cost cost_per_km units_per_load : ℚ)
    (nParticles : Nat) (c1 c2 : ℚ) : PSOParams :=
  ⟨dist, sqrt2, rand, timeUp, df, facility_capacity, fixed_cost, cost_per_km,
    units_per_load, nParticles, c1, c2⟩

/-- optimize_facility_locations_pso from facility_pso.py. The arguments
dist, sqrt2, rand, initParticles, initVelocities and timeUp model the
floating-point services, the np.random draws and the wall-clock check (see the
header comment); the remaining arguments are the Python ones. n_facilities
only shapes the random draws in the source, which are parameters here, so it
is carried but (as in any fixed run) not consulted elsewhere. -/
def optimize_facility_locations_pso (dist : ℚ × ℚ → ℚ × ℚ → ℚ) (sqrt2 : ℚ → ℚ)
    (rand : Nat → Nat → Pos × Pos) (initParticles initVelocities : Nat → Pos)
    (timeUp : Nat → Bool) (customers_df : List Customer) (n_facilities : Nat)
    (facility_capacity fixed_cost cost_per_km units_per_load : ℚ)
    (n_particles n_iterations : Nat)
    (inertia_weight cognitive_coefficient social_coefficient : ℚ) : PSOResult :=
  let P := mkP dist sqrt2 rand timeUp customers_df facility_capacity fixed_cost
    cost_per_km units_per_load n_particles cognitive_coefficient social_coefficient
  let pbScore : Nat → ℚ := fun i => costOfP P (initParticles i)
  let gbi := argminIdx pbScore n_particles
  let st0 : PSOState :=
    ⟨initParticles, initVelocities, initParticles, pbScore, Sum.inl gbi, pbScore gbi,
      inertia_weight, [], 0⟩
  let stF := psoLoop timeUp (iterStep P) n_iterations 0 st0
  let gpos := gbestPosOf stF
  let fin := calculate_total_cost dist sqrt2 gpos (dfCustomers customers_df)
    (dfDemands customers_df) (dfCoords customers_df) facility_capacity fixed_cost
    cost_per_km units_per_load
  { status := "Optimal"
    total_cost := fin.1
    facility_locations := mkFacLocs 0 gpos
    assignments := fin.2.map (fun a =>
      (a.1, a.2.map (fun f => "FAC" ++ toString (f + 1)),
        ((dfDemands customers_df).lookup a.1).getD 0))
    history := stF.history
    completed_iterations := stF.completed }

/-- Modelled from the spec: the per-particle update of a sweep in which every
particle reads the SAME global-best snapshot g, taken before the sweep began
(the spec's words: personal-best and global-best are both frozen for the
duration of the sweep). Identical to particleStep except that the social term
uses the snapshot g instead of dereferencing the live global best. -/
def particleStepSnap (P : PSOParams) (g : Pos) (k : Nat) (s : PSOState) (i : Nat) : PSOState :=
  let r := P.rand k i
  let x := s.particles i
  let v1 := vAdd (vScale s.inertia (s.velocities i))
    (vAdd (vHad (vScale P.c1 r.1) (vSub (s.pbestPos i) x))
      (vHad (vScale P.c2 r.2) (vSub g x)))
  let x1 := clampPos (latMin P.df) (latMax P.df) (lonMin P.df) (lonMax P.df) (vAdd x v1)
  let sc := costOfP P x1
  if sc < s.pbestScore i then
    { s with particles := fun j => if j = i then x1 else s.particles j
             velocities := fun j => if j = i then v1 else s.velocities j
             pbestPos := fun j => if j = i then x1 else s.pbestPos j
             pbestScore := fun j => if j = i then sc else s.pbestScore j }
  else
    { s with particles := fun j => if j = i then x1 else s.particles j
             velocities := fun j => if j = i then v1 else s.velocities j }

/-- Modelled from the spec: the whole sweep against an immutable snapshot of
the global best, taken once at sweep start. -/
def sweepSnapshot (P : PSOParams) (k : Nat) (st : PSOState) : PSOState :=
  (List.range P.nParticles).foldl (particleStepSnap P (gbestPosOf st) k) st

/-- Sum of the demands the trace assigns to facility f. -/
def assignedSum (f : Nat) (tr : List ((String × ℚ) × Option Nat)) : ℚ :=
  (tr.map (fun e => if e.2 = some f then e.1.2 else 0)).sum
/-- Membership in a particle position places its coordinates inside a box. -/
def inBox (laLo laHi loLo loHi : ℚ) (p : Pos) : Prop :=
  ∀ q ∈ p, laLo ≤ q.1 ∧ q.1 ≤ laHi ∧ loLo ≤ q.2 ∧ q.2 ≤ loHi

instance (laLo laHi loLo loHi : ℚ) (p : Pos) : Decidable (inBox laLo laHi loLo loHi p) :=
  List.decidableBAll _ p

/-- Box invariant of a PSO state: every personal-best position of a live
particle lies in the customer bounding box, a view-style global best points at
a live particle, and a copied global best lies in the box itself. -/
def boxInv (P : PSOParams) (st : PSOState) : Prop :=
  (∀ i, i < P.nParticles →
    inBox (latMin P.df) (latMax P.df) (lonMin P.df) (lonMax P.df) (st.pbestPos i)) ∧
  (∀ j, st.gbest = Sum.inl j → j < P.nParticles) ∧
  (∀ p, st.gbest = Sum.inr p →
    inBox (latMin P.df) (latMax P.df) (lonMin P.df) (lonMax P.df) p)

/-- History invariant: recorded best scores are pairwise non-increasing and
all dominate the current global best score. -/
def histInv (st : PSOState) : Prop :=
  st.history.Pairwise (fun a b => b.2 ≤ a.2) ∧ ∀ e ∈ st.history, st.gbestScore ≤ e.2


/-- Concrete two-customer data frame for a fully evaluated PSO run: customers
at (0,0) and (10,10), demand 1 each. -/
def c4df : List Customer := [⟨"A", 1, 0, 0⟩, ⟨"B", 1, 10, 10⟩]

/-- Concrete squared-Euclidean stand-in for the distance function of a fully
evaluated run (any rational-valued distance function is admissible for the
dist parameter). -/
def c4dist : ℚ × ℚ → ℚ × ℚ → ℚ := fun c f => (c.1 - f.1) ^ 2 + (c.2 - f.2) ^ 2

/-- Concrete random-draw stream: particle 0 gets zero cognitive and social
matrices, particle 1 gets zero cognitive and all-1/2 social matrices (all
values within the [0,1) range of np.random.rand). -/
def c4rand : Nat → Nat → Pos × Pos := fun _ i =>
  if i = 0 then ([(0, 0)], [(0, 0)]) else ([(0, 0)], [(1/2, 1/2)])

/-- Concrete run parameters: capacity 100, fixed cost 0, cost_per_km 1,
units_per_load 1, two particles, default coefficients c1 = c2 = 2. -/
def c4P : PSOParams := mkP c4dist (fun q => q) c4rand (fun _ => false) c4df 100 0 1 1 2 2 2

/-- Concrete state as produced by initialization for initial particles
[(0,0)] and [(10,10)] (both scoring 200), initial velocities [(1/2,1/2)] and
[(0,0)], inertia weight 1: the global best is the numpy VIEW of particle 0's
personal best (Sum.inl 0). -/
def c4st : PSOState :=
  ⟨fun i => if i = 0 then [(0, 0)] else [(10, 10)],
   fun i => if i = 0 then [(1/2, 1/2)] else [(0, 0)],
   fun i => if i = 0 then [(0, 0)] else [(10, 10)],
   fun _ => 200, Sum.inl 0, 200, 1, [], 0⟩

/-- Degenerate run parameters whose loop body is never entered in the
theorems that use them. -/
def idleP : PSOParams :=
  mkP (fun _ _ => 0) (fun q => q) (fun _ _ => ([], [])) (fun _ => false) [] 0 0 0 0 0 0 0

/-- Concrete PSO state with inertia weight 1/5 and no completed iterations. -/
def idleSt : PSOState :=
  ⟨fun _ => [], fun _ => [], fun _ => [], fun _ => 0, Sum.inr [], 0, 1/5, [], 0⟩

/- ---------------------------------------------------------------------------
Helper lemmas: folds, sorting, the customer-loop trace.
--------------------------------------------------------------------------- -/

theorem foldl_induct {α β : Type} (f : α → β → α) (Q : α → Prop)
    (h : ∀ s b, Q s → Q (f s b)) : ∀ (l : List β) (s : α), Q s → Q (l.foldl f s) := by
  intro l
  induction l with
  | nil => intro s hs; exact hs
  | cons b t ih => intro s hs; exact ih (f s b) (h s b hs)

theorem mem_insertByDist {ds : List ℚ} {i x : Nat} :
    ∀ {l : List Nat}, x ∈ insertByDist ds i l → x = i ∨ x ∈ l := by
  intro l
  induction l with
  | nil => intro hx; simp [insertByDist] at hx; exact Or.inl hx
  | cons j t ih =>
    intro hx
    by_cases hc : ds.getD j 0 ≤ ds.getD i 0
    · simp only [insertByDist, if_pos hc, List.mem_cons] at hx
      rcases hx with h1 | h2
      · exact Or.inr (List.mem_cons.mpr (Or.inl h1))
      · rcases ih h2 with h3 | h4
        · exact Or.inl h3
        · exact Or.inr (List.mem_cons.mpr (Or.inr h4))
    · simp only [insertByDist, if_neg hc, List.mem_cons] at hx
      rcases hx with h1 | h2 | h3
      · exact Or.inl h1
      · exact Or.inr (List.mem_cons.mpr (Or.inl h2))
      · exact Or.inr (List.mem_cons.mpr (Or.inr h3))

theorem mem_sortIdx_aux {ds : List ℚ} {x : Nat} :
    ∀ (l : List Nat) (acc : List Nat),
      x ∈ l.foldl (fun acc i => insertByDist ds i acc) acc → x ∈ acc ∨ x ∈ l := by
  intro l
  induction l with
  | nil => intro acc hx; exact Or.inl hx
  | cons i t ih =>
    intro acc hx
    rcases ih (insertByDist ds i acc) hx with h1 | h2
    · rcases mem_insertByDist h1 with h3 | h4
      · exact Or.inr (List.mem_cons.mpr (Or.inl h3))
      · exact Or.inl h4
    · exact Or.inr (List.mem_cons.mpr (Or.inr h2))

/-- Every index produced by the sort is a valid index of the key list. -/
theorem mem_sortIdx {ds : List ℚ} {x : Nat} (hx : x ∈ sortIdx ds) : x < ds.length := by
  rcases mem_sortIdx_aux (List.range ds.length) [] hx with h1 | h2
  · simp at h1
  · exact List.mem_range.mp h2

/-- A successful inner assignment loop returns a facility from its search list
whose usage-plus-demand check passed. -/
theorem tryAssign_some {d cap : ℚ} {usage : Nat → ℚ} :
    ∀ {l : List Nat} {f : Nat}, tryAssign d cap usage l = some f →
      f ∈ l ∧ usage f + d ≤ cap := by
  intro l
  induction l with
  | nil => intro f h; simp [tryAssign] at h
  | cons a t ih =>
    intro f h
    by_cases hc : usage a + d ≤ cap
    · simp only [tryAssign, if_pos hc, Option.some.injEq] at h
      subst h; exact ⟨List.mem_cons_self a t, hc⟩
    · simp only [tryAssign, if_neg hc] at h
      rcases ih h with ⟨h1, h2⟩
      exact ⟨List.mem_cons.mpr (Or.inr h1), h2⟩

/-- The inner assignment loop fails when no facility in its list passes the
capacity check. -/
theorem tryAssign_none {d cap : ℚ} {usage : Nat → ℚ}
    (h : ∀ f, ¬ (usage f + d ≤ cap)) : ∀ (l : List Nat), tryAssign d cap usage l = none := by
  intro l
  induction l with
  | nil => rfl
  | cons a t ih => simp only [tryAssign, if_neg (h a)]; exact ih

/-- The assignments list built by the customer loop is the initial list plus
the trace's (customer, choice) pairs. -/
theorem fold_assigns (dist : ℚ × ℚ → ℚ × ℚ → ℚ) (facLocs : List (ℚ × ℚ))
    (coords : String → ℚ × ℚ) (cap cpk upl : ℚ) :
    ∀ (l : List (String × ℚ)) (st : CostState),
      (l.foldl (processCustomer dist facLocs coords cap cpk upl) st).assigns =
        st.assigns ++ (assignTrace dist facLocs coords cap st.usage l).map
          (fun e => (e.1.1, e.2)) := by
  intro l
  induction l with
  | nil => intro st; simp [assignTrace]
  | cons cd t ih =>
    intro st
    simp only [List.foldl_cons, assignTrace]
    rcases hch : facChoice dist facLocs coords cap st.usage cd with _ | f
    · have hstep : processCustomer dist facLocs coords cap cpk upl st cd =
        { usage := st.usage, cost := st.cost + 1000000,
          assigns := st.assigns ++ [(cd.1, none)] } := by
        unfold processCustomer; rw [hch]
      rw [hstep, ih]
      simp
    · have hstep : processCustomer dist facLocs coords cap cpk upl st cd =
        { usage := fun j => if j = f then st.usage f + cd.2 else st.usage j,
          cost := st.cost + (distancesFor dist facLocs (coords cd.1)).getD f 0 * cpk *
            ((⌈cd.2 / upl⌉ : ℤ) : ℚ),
          assigns := st.assigns ++ [(cd.1, some f)] } := by
        unfold processCustomer; rw [hch]
      rw [hstep, ih]
      simp

/-- The total cost accumulated by the customer loop is the initial cost plus
the sum of the per-step contributions along the trace. -/
theorem fold_cost (dist : ℚ × ℚ → ℚ × ℚ → ℚ) (facLocs : List (ℚ × ℚ))
    (coords : String → ℚ × ℚ) (cap cpk upl : ℚ) :
    ∀ (l : List (String × ℚ)) (st : CostState),
      (l.foldl (processCustomer dist facLocs coords cap cpk upl) st).cost =
        st.cost + ((assignTrace dist facLocs coords cap st.usage l).map
          (contribCost dist facLocs coords cpk upl)).sum := by
  intro l
  induction l with
  | nil => intro st; simp [assignTrace]
  | cons cd t ih =>
    intro st
    simp only [List.foldl_cons, assignTrace]
    rcases hch : facChoice dist facLocs coords cap st.usage cd with _ | f
    · have hstep : processCustomer dist facLocs coords cap cpk upl st cd =
        { usage := st.usage, cost := st.cost + 1000000,
          assigns := st.assigns ++ [(cd.1, none)] } := by
        unfold processCustomer; rw [hch]
      rw [hstep, ih]
      simp [contribCost]
      ring
    · have hstep : processCustomer dist facLocs coords cap cpk upl st cd =
        { usage := fun j => if j = f then st.usage f + cd.2 else st.usage j,
          cost := st.cost + (distancesFor dist facLocs (coords cd.1)).getD f 0 * cpk *
            ((⌈cd.2 / upl⌉ : ℤ) : ℚ),
          assigns := st.assigns ++ [(cd.1, some f)] } := by
        unfold processCustomer; rw [hch]
      rw [hstep, ih]
      simp [contribCost]
      ring

/-- The usage function after the customer loop equals usageAfter. -/
theorem fold_usage (dist : ℚ × ℚ → ℚ × ℚ → ℚ) (facLocs : List (ℚ × ℚ))
    (coords : String → ℚ × ℚ) (cap cpk upl : ℚ) :
    ∀ (l : List (String × ℚ)) (st : CostState),
      (l.foldl (processCustomer dist facLocs coords cap cpk upl) st).usage =
        usageAfter dist facLocs coords cap st.usage l := by
  intro l
  induction l with
  | nil => intro st; simp [usageAfter]
  | cons cd t ih =>
    intro st
    simp only [List.foldl_cons, usageAfter]
    rcases hch : facChoice dist facLocs coords cap st.usage cd with _ | f
    · have hstep : processCustomer dist facLocs coords cap cpk upl st cd =
        { usage := st.usage, cost := st.cost + 1000000,
          assigns := st.assigns ++ [(cd.1, none)] } := by
        unfold processCustomer; rw [hch]
      rw [hstep, ih]
    · have hstep : processCustomer dist facLocs coords cap cpk upl st cd =
        { usage := fun j => if j = f then st.usage f + cd.2 else st.usage j,
          cost := st.cost + (distancesFor dist facLocs (coords cd.1)).getD f 0 * cpk *
            ((⌈cd.2 / upl⌉ : ℤ) : ℚ),
          assigns := st.assigns ++ [(cd.1, some f)] } := by
        unfold processCustomer; rw [hch]
      rw [hstep, ih]

/-- The trace pairs off the demands list in order: its first components are
exactly the demands entries. -/
theorem trace_firsts (dist : ℚ × ℚ → ℚ × ℚ → ℚ) (facLocs : List (ℚ × ℚ))
    (coords : String → ℚ × ℚ) (cap : ℚ) :
    ∀ (l : List (String × ℚ)) (usage : Nat → ℚ),
      (assignTrace dist facLocs coords cap usage l).map (fun e => e.1) = l := by
  intro l
  induction l with
  | nil => intro usage; rfl
  | cons cd t ih =>
    intro usage
    simp only [assignTrace]
    rcases hch : facChoice dist facLocs coords cap usage cd with _ | f
    · simp [ih]
    · simp [ih]

/-- Every facility index recorded in the trace is a valid index into the
facility list. -/
theorem trace_fac_lt (dist : ℚ × ℚ → ℚ × ℚ → ℚ) (facLocs : List (ℚ × ℚ))
    (coords : String → ℚ × ℚ) (cap : ℚ) :
    ∀ (l : List (String × ℚ)) (usage : Nat → ℚ),
      ∀ e ∈ assignTrace dist facLocs coords cap usage l, ∀ f, e.2 = some f →
        f < facLocs.length := by
  intro l
  induction l with
  | nil => intro usage e he; simp [assignTrace] at he
  | cons cd t ih =>
    intro usage e he f hef
    simp only [assignTrace] at he
    rcases hch : facChoice dist facLocs coords cap usage cd with _ | f0 <;> rw [hch] at he
    · rcases List.mem_cons.mp he with h1 | h2
      · subst h1; simp at hef
      · exact ih usage e h2 f hef
    · rcases List.mem_cons.mp he with h1 | h2
      · subst h1
        simp only [Option.some.injEq] at hef
        subst hef
        have hmem := (tryAssign_some hch).1
        have := mem_sortIdx hmem
        simpa [distancesFor] using this
      · exact ih _ e h2 f hef

theorem usageAfter_cons_none {dist : ℚ × ℚ → ℚ × ℚ → ℚ} {facLocs : List (ℚ × ℚ)}
    {coords : String → ℚ × ℚ} {cap : ℚ} {usage : Nat → ℚ} {cd : String × ℚ}
    {t : List (String × ℚ)} (hch : facChoice dist facLocs coords cap usage cd = none) :
    usageAfter dist facLocs coords cap usage (cd :: t) =
      usageAfter dist facLocs coords cap usage t := by
  simp only [usageAfter]
  rw [hch]

theorem usageAfter_cons_some {dist : ℚ × ℚ → ℚ × ℚ → ℚ} {facLocs : List (ℚ × ℚ)}
    {coords : String → ℚ × ℚ} {cap : ℚ} {usage : Nat → ℚ} {cd : String × ℚ}
    {t : List (String × ℚ)} {f0 : Nat}
    (hch : facChoice dist facLocs coords cap usage cd = some f0) :
    usageAfter dist facLocs coords cap usage (cd :: t) =
      usageAfter dist facLocs coords cap
        (fun j => if j = f0 then usage f0 + cd.2 else usage j) t := by
  simp only [usageAfter]
  rw [hch]

theorem assignTrace_cons_none {dist : ℚ × ℚ → ℚ × ℚ → ℚ} {facLocs : List (ℚ × ℚ)}
    {coords : String → ℚ × ℚ} {cap : ℚ} {usage : Nat → ℚ} {cd : String × ℚ}
    {t : List (String × ℚ)} (hch : facChoice dist facLocs coords cap usage cd = none) :
    assignTrace dist facLocs coords cap usage (cd :: t) =
      (cd, none) :: assignTrace dist facLocs coords cap usage t := by
  simp only [assignTrace]
  rw [hch]

theorem assignTrace_cons_some {dist : ℚ × ℚ → ℚ × ℚ → ℚ} {facLocs : List (ℚ × ℚ)}
    {coords : String → ℚ × ℚ} {cap : ℚ} {usage : Nat → ℚ} {cd : String × ℚ}
    {t : List (String × ℚ)} {f0 : Nat}
    (hch : facChoice dist facLocs coords cap usage cd = some f0) :
    assignTrace dist facLocs coords cap usage (cd :: t) =
      (cd, some f0) :: assignTrace dist facLocs coords cap
        (fun j => if j = f0 then usage f0 + cd.2 else usage j) t := by
  simp only [assignTrace]
  rw [hch]

/-- The final usage of a facility is its initial usage plus the total demand
the trace assigned to it. -/
theorem usage_trace_sum (dist : ℚ × ℚ → ℚ × ℚ → ℚ) (facLocs : List (ℚ × ℚ))
    (coords : String → ℚ × ℚ) (cap : ℚ) :
    ∀ (l : List (String × ℚ)) (usage : Nat → ℚ) (f : Nat),
      usageAfter dist facLocs coords cap usage l f =
        usage f + assignedSum f (assignTrace dist facLocs coords cap usage l) := by
  intro l
  induction l with
  | nil => intro usage f; simp [usageAfter, assignTrace, assignedSum]
  | cons cd t ih =>
    intro usage f
    rcases hch : facChoice dist facLocs coords cap usage cd with _ | f0
    · rw [usageAfter_cons_none hch, assignTrace_cons_none hch, ih]
      simp [assignedSum]
    · rw [usageAfter_cons_some hch, assignTrace_cons_some hch, ih]
      by_cases hf : f = f0
      · subst hf
        simp [assignedSum]
        ring
      · have h1 : (if f = f0 then usage f0 + cd.2 else usage f) = usage f := if_neg hf
        have h2 : ¬ (some f0 = some f) := by
          simp
          intro hc
          exact hf hc.symm
        simp [assignedSum, h1, h2]

/-- Capacity invariant of the customer loop: each facility's usage is either
within capacity or still untouched at its initial value. -/
theorem usage_cap_inv (dist : ℚ × ℚ → ℚ × ℚ → ℚ) (facLocs : List (ℚ × ℚ))
    (coords : String → ℚ × ℚ) (cap : ℚ) :
    ∀ (l : List (String × ℚ)) (usage : Nat → ℚ),
      (∀ f, usage f ≤ cap ∨ usage f = 0) →
      ∀ f, usageAfter dist facLocs coords cap usage l f ≤ cap ∨
        usageAfter dist facLocs coords cap usage l f = 0 := by
  intro l
  induction l with
  | nil => intro usage h f; simpa [usageAfter] using h f
  | cons cd t ih =>
    intro usage h f
    simp only [usageAfter]
    rcases hch : facChoice dist facLocs coords cap usage cd with _ | f0
    · exact ih usage h f
    · apply ih
      intro f1
      by_cases hf : f1 = f0
      · subst hf
        left
        simp only [if_pos rfl]
        exact (tryAssign_some hch).2
      · simpa [if_neg hf] using h f1

/-- Non-negativity of usage is preserved by the customer loop when all
demands are non-negative. -/
theorem usage_nonneg_inv (dist : ℚ × ℚ → ℚ × ℚ → ℚ) (facLocs : List (ℚ × ℚ))
    (coords : String → ℚ × ℚ) (cap : ℚ) :
    ∀ (l : List (String × ℚ)) (usage : Nat → ℚ),
      (∀ p ∈ l, (0 : ℚ) ≤ p.2) → (∀ f, 0 ≤ usage f) →
      ∀ f, 0 ≤ usageAfter dist facLocs coords cap usage l f := by
  intro l
  induction l with
  | nil => intro usage _ h f; simpa [usageAfter] using h f
  | cons cd t ih =>
    intro usage hl h f
    have hcd : (0 : ℚ) ≤ cd.2 := hl cd (List.mem_cons_self cd t)
    have ht : ∀ p ∈ t, (0 : ℚ) ≤ p.2 := fun p hp => hl p (List.mem_cons.mpr (Or.inr hp))
    rcases hch : facChoice dist facLocs coords cap usage cd with _ | f0
    · rw [usageAfter_cons_none hch]
      exact ih usage ht h f
    · rw [usageAfter_cons_some hch]
      apply ih _ ht
      intro f1
      by_cases hf : f1 = f0
      · subst hf
        simp only [if_pos rfl]
        exact add_nonneg (h f1) hcd
      · simpa [if_neg hf] using h f1

/-- A customer whose demand alone exceeds the capacity is never assigned
(given non-negative usage maintained by non-negative demands). -/
theorem trace_overdemand (dist : ℚ × ℚ → ℚ × ℚ → ℚ) (facLocs : List (ℚ × ℚ))
    (coords : String → ℚ × ℚ) (cap : ℚ) :
    ∀ (l : List (String × ℚ)) (usage : Nat → ℚ),
      (∀ p ∈ l, (0 : ℚ) ≤ p.2) → (∀ f, 0 ≤ usage f) →
      ∀ e ∈ assignTrace dist facLocs coords cap usage l, cap < e.1.2 → e.2 = none := by
  intro l
  induction l with
  | nil => intro usage _ _ e he; simp [assignTrace] at he
  | cons cd t ih =>
    intro usage hl h e he hcap
    have hcd : (0 : ℚ) ≤ cd.2 := hl cd (List.mem_cons_self cd t)
    have ht : ∀ p ∈ t, (0 : ℚ) ≤ p.2 := fun p hp => hl p (List.mem_cons.mpr (Or.inr hp))
    rcases hch : facChoice dist facLocs coords cap usage cd with _ | f0
    · rw [assignTrace_cons_none hch] at he
      rcases List.mem_cons.mp he with h1 | h2
      · subst h1; rfl
      · exact ih usage ht h e h2 hcap
    · rw [assignTrace_cons_some hch] at he
      rcases List.mem_cons.mp he with h1 | h2
      · exfalso
        subst h1
        have hle := (tryAssign_some hch).2
        have hlt : cap < usage f0 + cd.2 :=
          lt_of_lt_of_le hcap (le_add_of_nonneg_left (h f0))
        exact absurd hle (not_le.mpr hlt)
      · refine ih _ ht ?_ e h2 hcap
        intro f1
        by_cases hf : f1 = f0
        · subst hf
          simp only [if_pos rfl]
          exact add_nonneg (h f1) hcd
        · simpa [if_neg hf] using h f1

theorem sum_map_congr {α : Type} {f g : α → ℚ} :
    ∀ {l : List α}, (∀ a ∈ l, f a = g a) → (l.map f).sum = (l.map g).sum := by
  intro l
  induction l with
  | nil => intro _; rfl
  | cons a t ih =>
    intro h
    simp only [List.map_cons, List.sum_cons]
    rw [h a (List.mem_cons_self a t), ih (fun b hb => h b (List.mem_cons.mpr (Or.inr hb)))]

theorem countP_map_own {α β : Type} (f : α → β) (p : β → Bool) :
    ∀ (l : List α), (l.map f).countP p = l.countP (fun a => p (f a)) := by
  intro l
  induction l with
  | nil => rfl
  | cons a t ih =>
    simp only [List.map_cons, List.countP_cons, ih]

theorem zip_map_self {α β γ : Type} (f : α → β) (g : α → γ) :
    ∀ (l : List α), (l.map f).zip (l.map g) = l.map (fun a => (f a, g a)) := by
  intro l
  induction l with
  | nil => rfl
  | cons a t ih => simp only [List.map_cons, List.zip_cons_cons, ih]

theorem getD_map_lt {α β : Type} (g : α → β) (d1 : β) (d2 : α) :
    ∀ (l : List α) (f : Nat), f < l.length → (l.map g).getD f d1 = g (l.getD f d2) := by
  intro l
  induction l with
  | nil => intro f hf; simp at hf
  | cons a t ih =>
    intro f hf
    cases f with
    | zero => rfl
    | succ n =>
      simp only [List.map_cons, List.getD_cons_succ]
      exact ih n (by simpa using hf)

/-- Splitting the per-step contributions into transport costs plus the
1,000,000-per-unassigned-customer penalties. -/
theorem contrib_split (dist : ℚ × ℚ → ℚ × ℚ → ℚ) (facLocs : List (ℚ × ℚ))
    (coords : String → ℚ × ℚ) (cpk upl : ℚ) :
    ∀ (tr : List ((String × ℚ) × Option Nat)),
      (tr.map (contribCost dist facLocs coords cpk upl)).sum =
        (tr.map (transportCost dist facLocs coords cpk upl)).sum +
          1000000 * ((tr.countP (fun e => e.2.isNone) : ℕ) : ℚ) := by
  intro tr
  induction tr with
  | nil => simp
  | cons e t ih =>
    simp only [List.map_cons, List.sum_cons, List.countP_cons, ih]
    rcases he : e.2 with _ | f
    · simp [contribCost, transportCost, he]
      ring
    · simp [contribCost, transportCost, he]
      ring

/-- The fixed-cost pass adds fixed_cost once per facility with positive usage. -/
theorem fixed_fold (fc : ℚ) :
    ∀ (l : List ℚ) (c0 : ℚ),
      l.foldl (fun c u => if 0 < u then c + fc else c) c0 =
        c0 + fc * ((l.countP (fun u => decide (0 < u)) : ℕ) : ℚ) := by
  intro l
  induction l with
  | nil => intro c0; simp
  | cons u t ih =>
    intro c0
    simp only [List.foldl_cons, List.countP_cons, ih]
    by_cases hu : (0 : ℚ) < u
    · simp [hu]
      ring
    · simp [hu]

theorem zip_trace_eq {tr : List ((String × ℚ) × Option Nat)} {dm : List (String × ℚ)}
    (h : tr.map (fun e => e.1) = dm) :
    dm.zip (tr.map (fun e => (e.1.1, e.2))) = tr.map (fun e => (e.1, (e.1.1, e.2))) := by
  subst h
  exact zip_map_self (fun e => e.1) (fun e => (e.1.1, e.2)) tr

/- ---------------------------------------------------------------------------
Helper lemmas for the PSO loop.
--------------------------------------------------------------------------- -/

theorem particleStep_history (P : PSOParams) (k : Nat) (s : PSOState) (i : Nat) :
    (particleStep P k s i).history = s.history := by
  unfold particleStep
  dsimp only
  split <;> rfl

theorem particleStep_gbest (P : PSOParams) (k : Nat) (s : PSOState) (i : Nat) :
    (particleStep P k s i).gbest = s.gbest := by
  unfold particleStep
  dsimp only
  split <;> rfl

theorem particleStep_gbestScore (P : PSOParams) (k : Nat) (s : PSOState) (i : Nat) :
    (particleStep P k s i).gbestScore = s.gbestScore := by
  unfold particleStep
  dsimp only
  split <;> rfl

theorem particleStep_inertia (P : PSOParams) (k : Nat) (s : PSOState) (i : Nat) :
    (particleStep P k s i).inertia = s.inertia := by
  unfold particleStep
  dsimp only
  split <;> rfl

theorem particleStep_completed (P : PSOParams) (k : Nat) (s : PSOState) (i : Nat) :
    (particleStep P k s i).completed = s.completed := by
  unfold particleStep
  dsimp only
  split <;> rfl

theorem sweep_history (P : PSOParams) (k : Nat) (st : PSOState) :
    (sweep P k st).history = st.history := by
  unfold sweep
  apply foldl_induct (particleStep P k) (fun s => s.history = st.history)
  · intro s i hs
    rw [particleStep_history]
    exact hs
  · rfl

theorem sweep_gbest (P : PSOParams) (k : Nat) (st : PSOState) :
    (sweep P k st).gbest = st.gbest := by
  unfold sweep
  apply foldl_induct (particleStep P k) (fun s => s.gbest = st.gbest)
  · intro s i hs
    rw [particleStep_gbest]
    exact hs
  · rfl

theorem sweep_gbestScore (P : PSOParams) (k : Nat) (st : PSOState) :
    (sweep P k st).gbestScore = st.gbestScore := by
  unfold sweep
  apply foldl_induct (particleStep P k) (fun s => s.gbestScore = st.gbestScore)
  · intro s i hs
    rw [particleStep_gbestScore]
    exact hs
  · rfl

theorem sweep_inertia (P : PSOParams) (k : Nat) (st : PSOState) :
    (sweep P k st).inertia = st.inertia := by
  unfold sweep
  apply foldl_induct (particleStep P k) (fun s => s.inertia = st.inertia)
  · intro s i hs
    rw [particleStep_inertia]
    exact hs
  · rfl

theorem sweep_completed (P : PSOParams) (k : Nat) (st : PSOState) :
    (sweep P k st).completed = st.completed := by
  unfold sweep
  apply foldl_induct (particleStep P k) (fun s => s.completed = st.completed)
  · intro s i hs
    rw [particleStep_completed]
    exact hs
  · rfl

theorem iterStep_completed (P : PSOParams) (k : Nat) (st : PSOState) :
    (iterStep P k st).completed = k + 1 := rfl

theorem iterStep_inertia (P : PSOParams) (k : Nat) (st : PSOState) :
    (iterStep P k st).inertia = max 0.4 (st.inertia * 0.99) := by
  unfold iterStep
  dsimp only
  split
  · dsimp only
    rw [sweep_inertia]
  · rw [sweep_inertia]

theorem iterStep_gbestScore_le (P : PSOParams) (k : Nat) (st : PSOState) :
    (iterStep P k st).gbestScore ≤ st.gbestScore := by
  unfold iterStep
  dsimp only
  split
  · next h =>
    dsimp only
    rw [sweep_gbestScore] at h
    exact le_of_lt h
  · rw [sweep_gbestScore]

theorem iterStep_history (P : PSOParams) (k : Nat) (st : PSOState) :
    (iterStep P k st).history = st.history ++ [(k, (iterStep P k st).gbestScore)] := by
  unfold iterStep
  dsimp only
  split
  · dsimp only
    rw [sweep_history]
  · rw [sweep_history]

theorem psoLoop_preserve (tu : Nat → Bool) (step : Nat → PSOState → PSOState)
    (Q : PSOState → Prop) (hstep : ∀ k st, Q st → Q (step k st)) :
    ∀ (n k : Nat) (st : PSOState), Q st → Q (psoLoop tu step n k st) := by
  intro n
  induction n with
  | zero => intro k st h; exact h
  | succ m ih =>
    intro k st h
    unfold psoLoop
    by_cases ht : tu k
    · rw [if_pos ht]; exact h
    · rw [if_neg ht]
      exact ih (k + 1) (step k st) (hstep k st h)

/-- Geometric inertia decay composes: applying the decay rule to an already
decayed weight gives the closed form with one more factor of 0.99. -/
theorem max_decay (w : ℚ) (m : Nat) :
    max 0.4 (max 0.4 (w * 0.99) * 0.99 ^ m) = max 0.4 (w * 0.99 ^ (m + 1)) := by
  have h9 : (0 : ℚ) ≤ 0.99 ^ m := pow_nonneg (by norm_num) m
  rw [max_mul_of_nonneg _ _ h9, ← max_assoc]
  have h1 : (0.4 : ℚ) * 0.99 ^ m ≤ 0.4 := by
    have := pow_le_one₀ (show (0:ℚ) ≤ 0.99 by norm_num) (show (0.99:ℚ) ≤ 1 by norm_num) (n := m)
    nlinarith
  rw [max_eq_left h1]
  have h2 : w * 0.99 * 0.99 ^ m = w * 0.99 ^ (m + 1) := by
    rw [pow_succ]
    ring
  rw [h2]

/-- Behaviour of the main loop with respect to completed-iteration counting
and the inertia weight: it runs some number of iterations j with
k ≤ k + j ≤ k + fuel, leaves the state untouched when j = 0, and carries the
closed-form decayed inertia when j ≥ 1. -/
theorem psoLoop_completed_inertia (tu : Nat → Bool) (step : Nat → PSOState → PSOState)
    (hC : ∀ k st, (step k st).completed = k + 1)
    (hI : ∀ k st, (step k st).inertia = max 0.4 (st.inertia * 0.99)) :
    ∀ (n k : Nat) (st : PSOState), st.completed = k →
      ((psoLoop tu step n k st).completed = k → psoLoop tu step n k st = st) ∧
      k ≤ (psoLoop tu step n k st).completed ∧
      (psoLoop tu step n k st).completed ≤ k + n ∧
      (k < (psoLoop tu step n k st).completed →
        (psoLoop tu step n k st).inertia =
          max 0.4 (st.inertia * 0.99 ^ ((psoLoop tu step n k st).completed - k))) := by
  intro n
  induction n with
  | zero =>
    intro k st hk
    simp only [psoLoop]
    refine ⟨fun _ => trivial, by omega, by omega, fun hlt => ?_⟩
    rw [hk] at hlt
    exact absurd hlt (lt_irrefl k)
  | succ m ih =>
    intro k st hk
    unfold psoLoop
    by_cases ht : tu k
    · rw [if_pos ht]
      refine ⟨fun _ => rfl, by omega, by omega, fun hlt => ?_⟩
      rw [hk] at hlt
      exact absurd hlt (lt_irrefl k)
    · rw [if_neg ht]
      have hk1 : (step k st).completed = k + 1 := hC k st
      rcases ih (k + 1) (step k st) hk1 with ⟨h0, hle, hub, hformula⟩
      refine ⟨?_, by omega, by omega, ?_⟩
      · intro hend
        omega
      · intro hlt
        have hcase : (psoLoop tu step m (k + 1) (step k st)).completed = k + 1 ∨
            k + 1 < (psoLoop tu step m (k + 1) (step k st)).completed := by omega
        rcases hcase with hc1 | hc2
        · rw [h0 hc1, hI k st, hC k st]
          have h1k : k + 1 - k = 1 := by omega
          rw [h1k, pow_one]
        · rw [hformula hc2, hI k st]
          have hm : (psoLoop tu step m (k + 1) (step k st)).completed - (k + 1) + 1 =
              (psoLoop tu step m (k + 1) (step k st)).completed - k := by omega
          rw [max_decay, hm]

theorem minD_le_of_mem : ∀ {l : List ℚ}, ∀ x ∈ l, minD l ≤ x := by
  have haux : ∀ (t : List ℚ) (a : ℚ), t.foldl min a ≤ a ∧ ∀ x ∈ t, t.foldl min a ≤ x := by
    intro t
    induction t with
    | nil => intro a; exact ⟨le_refl a, by intro x hx; simp at hx⟩
    | cons b t2 ih =>
      intro a
      rcases ih (min a b) with ⟨h1, h2⟩
      constructor
      · exact le_trans h1 (min_le_left a b)
      · intro x hx
        rcases List.mem_cons.mp hx with h3 | h4
        · subst h3
          exact le_trans h1 (min_le_right a x)
        · exact h2 x h4
  intro l x hx
  cases l with
  | nil => simp at hx
  | cons a t =>
    rcases List.mem_cons.mp hx with h1 | h2
    · subst h1; exact (haux t x).1
    · exact (haux t a).2 x h2

theorem le_maxD_of_mem : ∀ {l : List ℚ}, ∀ x ∈ l, x ≤ maxD l := by
  have haux : ∀ (t : List ℚ) (a : ℚ), a ≤ t.foldl max a ∧ ∀ x ∈ t, x ≤ t.foldl max a := by
    intro t
    induction t with
    | nil => intro a; exact ⟨le_refl a, by intro x hx; simp at hx⟩
    | cons b t2 ih =>
      intro a
      rcases ih (max a b) with ⟨h1, h2⟩
      constructor
      · exact le_trans (le_max_left a b) h1
      · intro x hx
        rcases List.mem_cons.mp hx with h3 | h4
        · subst h3
          exact le_trans (le_max_right a x) h1
        · exact h2 x h4
  intro l x hx
  cases l with
  | nil => simp at hx
  | cons a t =>
    rcases List.mem_cons.mp hx with h1 | h2
    · subst h1; exact (haux t x).1
    · exact (haux t a).2 x h2

theorem minD_mem : ∀ {l : List ℚ}, l ≠ [] → minD l ∈ l := by
  have haux : ∀ (t : List ℚ) (a : ℚ), t.foldl min a = a ∨ t.foldl min a ∈ t := by
    intro t
    induction t with
    | nil => intro a; exact Or.inl rfl
    | cons b t2 ih =>
      intro a
      rcases ih (min a b) with h1 | h2
      · rcases min_choice a b with h3 | h4
        · exact Or.inl (h1.trans h3)
        · exact Or.inr (List.mem_cons.mpr (Or.inl (h1.trans h4)))
      · exact Or.inr (List.mem_cons.mpr (Or.inr h2))
  intro l hl
  cases l with
  | nil => exact absurd rfl hl
  | cons a t =>
    rcases haux t a with h1 | h2
    · rw [minD, h1]; exact List.mem_cons_self a t
    · rw [minD]; exact List.mem_cons.mpr (Or.inr h2)

/-- The customer bounding box is well formed when there is a customer. -/
theorem latMin_le_latMax {df : List Customer} (h : df ≠ []) : latMin df ≤ latMax df := by
  have hne : df.map (fun c => c.lat) ≠ [] := by
    intro hc
    exact h (List.map_eq_nil_iff.mp hc)
  have hm := minD_mem hne
  exact le_maxD_of_mem _ hm

/-- The customer bounding box is well formed when there is a customer. -/
theorem lonMin_le_lonMax {df : List Customer} (h : df ≠ []) : lonMin df ≤ lonMax df := by
  have hne : df.map (fun c => c.lon) ≠ [] := by
    intro hc
    exact h (List.map_eq_nil_iff.mp hc)
  have hm := minD_mem hne
  exact le_maxD_of_mem _ hm

theorem argmin_fold (s : Nat → ℚ) :
    ∀ (l : List Nat) (b : Nat),
      (l.foldl (fun b2 j => if s j < s b2 then j else b2) b = b ∨
        l.foldl (fun b2 j => if s j < s b2 then j else b2) b ∈ l) ∧
      s (l.foldl (fun b2 j => if s j < s b2 then j else b2) b) ≤ s b ∧
      ∀ j ∈ l, s (l.foldl (fun b2 j => if s j < s b2 then j else b2) b) ≤ s j := by
  intro l
  induction l with
  | nil =>
    intro b
    refine ⟨Or.inl rfl, le_refl _, ?_⟩
    intro j hj
    simp at hj
  | cons a t ih =>
    intro b
    simp only [List.foldl_cons]
    by_cases hc : s a < s b
    · rw [if_pos hc]
      rcases ih a with ⟨h1, h2, h3⟩
      refine ⟨?_, le_trans h2 (le_of_lt hc), ?_⟩
      · rcases h1 with h4 | h5
        · exact Or.inr (List.mem_cons.mpr (Or.inl h4))
        · exact Or.inr (List.mem_cons.mpr (Or.inr h5))
      · intro j hj
        rcases List.mem_cons.mp hj with h4 | h5
        · subst h4; exact h2
        · exact h3 j h5
    · rw [if_neg hc]
      rcases ih b with ⟨h1, h2, h3⟩
      refine ⟨?_, h2, ?_⟩
      · rcases h1 with h4 | h5
        · exact Or.inl h4
        · exact Or.inr (List.mem_cons.mpr (Or.inr h5))
      · intro j hj
        rcases List.mem_cons.mp hj with h4 | h5
        · subst h4
          exact le_trans h2 (not_lt.mp hc)
        · exact h3 j h5

/-- np.argmin returns a valid index for a non-empty array. -/
theorem argminIdx_lt (s : Nat → ℚ) {n : Nat} (h : 0 < n) : argminIdx s n < n := by
  rcases (argmin_fold s (List.range n) 0).1 with h1 | h2
  · rw [argminIdx, h1]; exact h
  · exact List.mem_range.mp h2

/-- The argmin entry is a lower bound on every entry of the array. -/
theorem argminIdx_le (s : Nat → ℚ) {n i : Nat} (hi : i < n) :
    s (argminIdx s n) ≤ s i :=
  (argmin_fold s (List.range n) 0).2.2 i (List.mem_range.mpr hi)

/-- The argmin entry equals the minimum of the array values. -/
theorem argminIdx_eq_minD (s : Nat → ℚ) {n : Nat} (h : 0 < n) :
    s (argminIdx s n) = minD ((List.range n).map s) := by
  apply le_antisymm
  · have hmem : minD ((List.range n).map s) ∈ (List.range n).map s := by
      apply minD_mem
      intro hc
      rw [List.map_eq_nil_iff] at hc
      have hn0 := List.range_eq_nil.mp hc
      omega
    rcases List.mem_map.mp hmem with ⟨j, hj, hje⟩
    rw [← hje]
    exact argminIdx_le s (List.mem_range.mp hj)
  · apply minD_le_of_mem
    apply List.mem_map.mpr
    exact ⟨argminIdx s n, List.mem_range.mpr (argminIdx_lt s h), rfl⟩

/-- np.clip lands inside the box whenever the box is well formed. -/
theorem clampPos_inBox {laLo laHi loLo loHi : ℚ} (h1 : laLo ≤ laHi) (h2 : loLo ≤ loHi)
    (a : Pos) : inBox laLo laHi loLo loHi (clampPos laLo laHi loLo loHi a) := by
  intro q hq
  rcases List.mem_map.mp hq with ⟨p, _, hpe⟩
  subst hpe
  refine ⟨?_, ?_, ?_, ?_⟩
  · exact le_min (le_max_right p.1 laLo) h1
  · exact min_le_right _ laHi
  · exact le_min (le_max_right p.2 loLo) h2
  · exact min_le_right _ loHi

theorem particleStep_boxInv (P : PSOParams) (hla : latMin P.df ≤ latMax P.df)
    (hlo : lonMin P.df ≤ lonMax P.df) (k : Nat) (s : PSOState) (i : Nat)
    (h : boxInv P s) : boxInv P (particleStep P k s i) := by
  rcases h with ⟨h1, h2, h3⟩
  unfold particleStep
  dsimp only
  split
  · refine ⟨?_, h2, h3⟩
    intro j hj
    dsimp only
    by_cases hji : j = i
    · rw [if_pos hji]
      exact clampPos_inBox hla hlo _
    · rw [if_neg hji]
      exact h1 j hj
  · exact ⟨h1, h2, h3⟩

theorem sweep_boxInv (P : PSOParams) (hla : latMin P.df ≤ latMax P.df)
    (hlo : lonMin P.df ≤ lonMax P.df) (k : Nat) (st : PSOState)
    (h : boxInv P st) : boxInv P (sweep P k st) := by
  unfold sweep
  apply foldl_induct (particleStep P k) (boxInv P)
  · intro s i hs
    exact particleStep_boxInv P hla hlo k s i hs
  · exact h

theorem iterStep_boxInv (P : PSOParams) (h0 : 0 < P.nParticles)
    (hla : latMin P.df ≤ latMax P.df) (hlo : lonMin P.df ≤ lonMax P.df)
    (k : Nat) (st : PSOState) (h : boxInv P st) : boxInv P (iterStep P k st) := by
  have hs := sweep_boxInv P hla hlo k st h
  rcases hs with ⟨h1, h2, h3⟩
  unfold iterStep
  dsimp only
  split
  · refine ⟨h1, ?_, ?_⟩
    · intro j hj
      simp at hj
    · intro p hp
      simp only [Sum.inr.injEq] at hp
      rw [← hp]
      exact h1 _ (argminIdx_lt _ h0)
  · exact ⟨h1, h2, h3⟩

theorem gbestPosOf_inBox (P : PSOParams) (st : PSOState) (h : boxInv P st) :
    inBox (latMin P.df) (latMax P.df) (lonMin P.df) (lonMax P.df) (gbestPosOf st) := by
  rcases h with ⟨h1, h2, h3⟩
  rcases hg : st.gbest with j | p
  · rw [gbestPosOf, hg]
    exact h1 j (h2 j hg)
  · rw [gbestPosOf, hg]
    exact h3 p hg

theorem mkFacLocs_mem : ∀ (p : Pos) (i : Nat) (e : String × ℚ × ℚ),
    e ∈ mkFacLocs i p → e.2 ∈ p := by
  intro p
  induction p with
  | nil => intro i e he; simp [mkFacLocs] at he
  | cons q t ih =>
    intro i e he
    simp only [mkFacLocs, List.mem_cons] at he
    rcases he with h1 | h2
    · subst h1
      exact List.mem_cons.mpr (Or.inl rfl)
    · exact List.mem_cons.mpr (Or.inr (ih (i + 1) e h2))

theorem iterStep_histInv (P : PSOParams) (k : Nat) (st : PSOState)
    (h : histInv st) : histInv (iterStep P k st) := by
  rcases h with ⟨h1, h2⟩
  have hle := iterStep_gbestScore_le P k st
  have hh := iterStep_history P k st
  constructor
  · rw [hh]
    rw [List.pairwise_append]
    refine ⟨h1, List.pairwise_singleton _ _, ?_⟩
    intro a ha b hb
    rcases List.mem_singleton.mp hb with rfl
    exact le_trans hle (h2 a ha)
  · intro e he
    rw [hh] at he
    rcases List.mem_append.mp he with h3 | h4
    · exact le_trans hle (h2 e h3)
    · rcases List.mem_singleton.mp h4 with rfl
      exact le_refl _

/- ---------------------------------------------------------------------------
Claim theorems.
--------------------------------------------------------------------------- -/

/-- C7: for every input, optimize_facility_locations_pso returns a result
whose status field equals the string "Optimal" — including when the time
budget expired before any iteration ran and regardless of assignments; the
status field never takes any other value (it is set unconditionally). -/
theorem c7_status_always_optimal (dist : ℚ × ℚ → ℚ × ℚ → ℚ) (sqrt2 : ℚ → ℚ)
    (rand : Nat → Nat → Pos × Pos) (initParticles initVelocities : Nat → Pos)
    (timeUp : Nat → Bool) (customers_df : List Customer) (n_facilities : Nat)
    (facility_capacity fixed_cost cost_per_km units_per_load : ℚ)
    (n_particles n_iterations : Nat)
    (inertia_weight cognitive_coefficient social_coefficient : ℚ) :
    (optimize_facility_locations_pso dist sqrt2 rand initParticles initVelocities timeUp
      customers_df n_facilities facility_capacity fixed_cost cost_per_km units_per_load
      n_particles n_iterations inertia_weight cognitive_coefficient
      social_coefficient).status = "Optimal" := rfl

/-- C10: calculate_total_cost is a pure function whose output does not depend
on the customers list argument: two calls agreeing on every other argument
(facility locations, the demands association in its entry order, coordinates,
capacity, fixed cost, cost per km, units per load) return the identical
(total cost, assignments) pair even when the customers argument differs. -/
theorem c10_customers_arg_ignored (dist : ℚ × ℚ → ℚ × ℚ → ℚ) (sqrt2 : ℚ → ℚ)
    (facility_locations : List (ℚ × ℚ)) (customers1 customers2 : List String)
    (demands : List (String × ℚ)) (customer_coords : String → ℚ × ℚ)
    (facility_capacity fixed_cost cost_per_km units_per_load : ℚ) :
    calculate_total_cost dist sqrt2 facility_locations customers1 demands customer_coords
      facility_capacity fixed_cost cost_per_km units_per_load =
    calculate_total_cost dist sqrt2 facility_locations customers2 demands customer_coords
      facility_capacity fixed_cost cost_per_km units_per_load := rfl

/-- C2: for every input with at least one facility, the total cost returned
by calculate_total_cost equals: the sum over assigned customers of the
distance to the assigned facility times cost_per_km times
ceil(demand / units_per_load), plus 1,000,000 per unassigned customer, plus
fixed_cost once per facility with strictly positive accumulated usage, plus
100 times the standard deviation of the per-facility usage values (std
modelled as sqrt2 of the population variance), the last term present exactly
when there is more than one facility and not all usage values are equal
(more than one distinct usage value, i.e. dedup length above one). -/
theorem c2_cost_decomposition
    (dist : ℚ × ℚ → ℚ × ℚ → ℚ) (sqrt2 : ℚ → ℚ)
    (facility_locations : List (ℚ × ℚ)) (customers : List String)
    (demands : List (String × ℚ)) (customer_coords : String → ℚ × ℚ)
    (facility_capacity fixed_cost cost_per_km units_per_load : ℚ)
    (hf : 1 ≤ facility_locations.length) :
    (calculate_total_cost dist sqrt2 facility_locations customers demands customer_coords
        facility_capacity fixed_cost cost_per_km units_per_load).1 =
      ((demands.zip (calculate_total_cost dist sqrt2 facility_locations customers demands
          customer_coords facility_capacity fixed_cost cost_per_km units_per_load).2).map
        (fun p =>
          match p.2.2 with
          | some f => dist (customer_coords p.1.1) (facility_locations.getD f (0, 0)) *
              cost_per_km * ((⌈p.1.2 / units_per_load⌉ : ℤ) : ℚ)
          | none => 0)).sum
      + 1000000 * (((calculate_total_cost dist sqrt2 facility_locations customers demands
          customer_coords facility_capacity fixed_cost cost_per_km
          units_per_load).2.countP (fun a => a.2.isNone) : ℕ) : ℚ)
      + fixed_cost * (((finalUsageValues dist facility_locations customer_coords
          facility_capacity demands).countP (fun u => decide (0 < u)) : ℕ) : ℚ)
      + (if 1 < facility_locations.length ∧
            1 < (finalUsageValues dist facility_locations customer_coords facility_capacity
              demands).dedup.length
         then 100 * sqrt2 (popVariance (finalUsageValues dist facility_locations
            customer_coords facility_capacity demands))
         else 0) := by
  have hA : (calculate_total_cost dist sqrt2 facility_locations customers demands customer_coords
      facility_capacity fixed_cost cost_per_km units_per_load).2 =
      (assignTrace dist facility_locations customer_coords facility_capacity (fun _ => 0)
        demands).map (fun e => (e.1.1, e.2)) := by
    simp only [calculate_total_cost]
    rw [fold_assigns]
    simp
  rw [hA]
  rw [zip_trace_eq (trace_firsts dist facility_locations customer_coords facility_capacity
    demands (fun _ => 0))]
  have hcnt : ((assignTrace dist facility_locations customer_coords facility_capacity
      (fun _ => 0) demands).map (fun e => (e.1.1, e.2))).countP (fun a => a.2.isNone) =
      (assignTrace dist facility_locations customer_coords facility_capacity
        (fun _ => 0) demands).countP (fun e => e.2.isNone) := by
    rw [countP_map_own]
  rw [hcnt]
  have hsum : (((assignTrace dist facility_locations customer_coords facility_capacity
      (fun _ => 0) demands).map (fun e => (e.1, (e.1.1, e.2)))).map
        (fun p => match p.2.2 with
          | some f => dist (customer_coords p.1.1) (facility_locations.getD f (0, 0)) *
              cost_per_km * ((⌈p.1.2 / units_per_load⌉ : ℤ) : ℚ)
          | none => 0)).sum =
      ((assignTrace dist facility_locations customer_coords facility_capacity
        (fun _ => 0) demands).map (transportCost dist facility_locations customer_coords
          cost_per_km units_per_load)).sum := by
    rw [List.map_map]
    apply sum_map_congr
    intro e he
    rcases he2 : e.2 with _ | f
    · simp [transportCost, he2]
    · have hflt : f < facility_locations.length :=
        trace_fac_lt dist facility_locations customer_coords facility_capacity demands
          (fun _ => 0) e he f he2
      simp only [Function.comp, transportCost, he2]
      rw [distancesFor, getD_map_lt _ _ (0, 0) _ f hflt]
  rw [hsum]
  have hC : (demands.foldl (processCustomer dist facility_locations customer_coords
      facility_capacity cost_per_km units_per_load) ⟨fun _ => 0, 0, []⟩).cost =
      ((assignTrace dist facility_locations customer_coords facility_capacity (fun _ => 0)
        demands).map (contribCost dist facility_locations customer_coords cost_per_km
        units_per_load)).sum := by
    rw [fold_cost]
    simp
  have hU : (demands.foldl (processCustomer dist facility_locations customer_coords
      facility_capacity cost_per_km units_per_load) ⟨fun _ => 0, 0, []⟩).usage =
      finalUsage dist facility_locations customer_coords facility_capacity demands := by
    rw [fold_usage]
    rfl
  simp only [calculate_total_cost]
  rw [hC, hU]
  rw [fixed_fold]
  simp only [finalUsageValues]
  simp only [List.length_map, List.length_range]
  rw [contrib_split]
  by_cases hcond : 1 < facility_locations.length ∧
      1 < ((List.range facility_locations.length).map (finalUsage dist facility_locations
        customer_coords facility_capacity demands)).dedup.length
  · rw [if_pos hcond, if_pos hcond]
    ring
  · rw [if_neg hcond, if_neg hcond]
    ring

/-- Witness for C2 at a concrete input: one facility at (0,0), one customer
with demand 1, constant distance 3, cost_per_km 2, fixed_cost 5. -/
theorem c2_cost_decomposition_witness :
    (1 ≤ ([((0 : ℚ), (0 : ℚ))] : List (ℚ × ℚ)).length) ∧
    (calculate_total_cost (fun _ _ => 3) (fun q => q) [(0, 0)] [] [("A", 1)]
        (fun _ => (0, 0)) 10 5 2 1).1 =
      (([(("A", (1 : ℚ)))].zip (calculate_total_cost (fun _ _ => 3) (fun q => q) [(0, 0)] []
          [("A", 1)] (fun _ => (0, 0)) 10 5 2 1).2).map
        (fun p =>
          match p.2.2 with
          | some f => (fun _ _ => (3 : ℚ)) ((fun _ => ((0 : ℚ), (0 : ℚ))) p.1.1)
              (([((0 : ℚ), (0 : ℚ))]).getD f (0, 0)) * 2 * ((⌈p.1.2 / 1⌉ : ℤ) : ℚ)
          | none => 0)).sum
      + 1000000 * (((calculate_total_cost (fun _ _ => 3) (fun q => q) [(0, 0)] [] [("A", 1)]
          (fun _ => (0, 0)) 10 5 2 1).2.countP (fun a => a.2.isNone) : ℕ) : ℚ)
      + 5 * (((finalUsageValues (fun _ _ => 3) [(0, 0)] (fun _ => (0, 0)) 10
          [("A", 1)]).countP (fun u => decide (0 < u)) : ℕ) : ℚ)
      + (if 1 < ([((0 : ℚ), (0 : ℚ))] : List (ℚ × ℚ)).length ∧
            1 < (finalUsageValues (fun _ _ => 3) [(0, 0)] (fun _ => (0, 0)) 10
              [("A", 1)]).dedup.length
         then 100 * (fun q => q) (popVariance (finalUsageValues (fun _ _ => 3) [(0, 0)]
            (fun _ => (0, 0)) 10 [("A", 1)]))
         else 0) :=
  ⟨by decide,
    c2_cost_decomposition (fun _ _ => 3) (fun q => q) [(0, 0)] [] [("A", 1)]
      (fun _ => (0, 0)) 10 5 2 1 (by decide)⟩

/-- C3 (amended): for every assignment mapping produced by
calculate_total_cost with non-negative demands AND non-negative
facility_capacity, for every facility index, the sum of the demands of the
customers assigned to that facility is at most facility_capacity. (The
original claim omitted the capacity-sign hypothesis; with a negative
capacity every facility is empty and its assigned-demand sum 0 exceeds the
capacity, see the counterexample. Non-negativity of demands is kept from the
claim although the capacity invariant holds without it.) -/
theorem c3_capacity_amended
    (dist : ℚ × ℚ → ℚ × ℚ → ℚ) (sqrt2 : ℚ → ℚ)
    (facility_locations : List (ℚ × ℚ)) (customers : List String)
    (demands : List (String × ℚ)) (customer_coords : String → ℚ × ℚ)
    (facility_capacity fixed_cost cost_per_km units_per_load : ℚ)
    (hd : ∀ p ∈ demands, (0 : ℚ) ≤ p.2) (hcap : 0 ≤ facility_capacity) (f : Nat) :
    ((demands.zip (calculate_total_cost dist sqrt2 facility_locations customers demands
        customer_coords facility_capacity fixed_cost cost_per_km units_per_load).2).map
      (fun p => if p.2.2 = some f then p.1.2 else 0)).sum ≤ facility_capacity := by
  have hA : (calculate_total_cost dist sqrt2 facility_locations customers demands customer_coords
      facility_capacity fixed_cost cost_per_km units_per_load).2 =
      (assignTrace dist facility_locations customer_coords facility_capacity (fun _ => 0)
        demands).map (fun e => (e.1.1, e.2)) := by
    simp only [calculate_total_cost]
    rw [fold_assigns]
    simp
  rw [hA]
  rw [zip_trace_eq (trace_firsts dist facility_locations customer_coords facility_capacity
    demands (fun _ => 0))]
  have hred : (((assignTrace dist facility_locations customer_coords facility_capacity
      (fun _ => 0) demands).map (fun e => (e.1, (e.1.1, e.2)))).map
        (fun p => if p.2.2 = some f then p.1.2 else 0)).sum =
      assignedSum f (assignTrace dist facility_locations customer_coords facility_capacity
        (fun _ => 0) demands) := by
    rw [List.map_map]
    rfl
  rw [hred]
  have hsum := usage_trace_sum dist facility_locations customer_coords facility_capacity
    demands (fun _ => 0) f
  have hzero : (0 : ℚ) + assignedSum f (assignTrace dist facility_locations customer_coords
      facility_capacity (fun _ => 0) demands) = assignedSum f (assignTrace dist
      facility_locations customer_coords facility_capacity (fun _ => 0) demands) := by
    ring
  rw [hzero] at hsum
  rw [← hsum]
  rcases usage_cap_inv dist facility_locations customer_coords facility_capacity demands
    (fun _ => 0) (fun _ => Or.inr rfl) f with h1 | h2
  · exact h1
  · rw [h2]
    exact hcap

/-- Counterexample to C3 as stated: with facility_capacity = -1 (and a
single positive-demand customer, so the claim's non-negative-demands
hypothesis holds), the customer is unassigned, facility 0 receives total
demand 0, and 0 is NOT at most the capacity -1. -/
theorem c3_capacity_counterexample :
    (∀ p ∈ [(("A", (1 : ℚ)))], (0 : ℚ) ≤ p.2) ∧
    ¬ ((([(("A", (1 : ℚ)))].zip (calculate_total_cost (fun _ _ => 0) (fun q => q) [(0, 0)] []
        [("A", 1)] (fun _ => (0, 0)) (-1) 0 1 1).2).map
      (fun p => if p.2.2 = some 0 then p.1.2 else 0)).sum ≤ (-1 : ℚ)) := by
  with_unfolding_all decide

/-- Witness for C3 (amended) at a concrete input: one facility, one customer
of demand 1, capacity 30. -/
theorem c3_capacity_amended_witness :
    (∀ p ∈ [(("A", (1 : ℚ)))], (0 : ℚ) ≤ p.2) ∧ ((0 : ℚ) ≤ 30) ∧
    ((([(("A", (1 : ℚ)))].zip (calculate_total_cost (fun _ _ => 0) (fun q => q) [(0, 0)] []
        [("A", 1)] (fun _ => (0, 0)) 30 0 1 1).2).map
      (fun p => if p.2.2 = some 0 then p.1.2 else 0)).sum ≤ 30) :=
  ⟨by decide, by with_unfolding_all decide,
    c3_capacity_amended (fun _ _ => 0) (fun q => q) [(0, 0)] [] [("A", 1)] (fun _ => (0, 0))
      30 0 1 1 (by decide) (by with_unfolding_all decide) 0⟩

/-- C5 (amended): in the scenario with 1 facility, capacity 30 and two
customers of demand 40 each, every evaluation of calculate_total_cost leaves
BOTH customers unassigned (each demand 40 alone exceeds the capacity 30),
both incur the 1,000,000 penalty, the total cost is exactly 2,000,000 and in
particular at least 1,000,000; and in general a customer whose demand
exceeds facility_capacity outright (all demands being non-negative) is
always unassigned. (The original claim said exactly ONE customer is
unassigned in the scenario; the code leaves both unassigned, see the
counterexample.) -/
theorem c5_overdemand_amended :
    (∀ (dist : ℚ × ℚ → ℚ × ℚ → ℚ) (sqrt2 : ℚ → ℚ) (a b : String)
      (coords : String → ℚ × ℚ) (facility_locations : List (ℚ × ℚ))
      (customers : List String) (fc cpk upl : ℚ),
      facility_locations.length = 1 →
        (calculate_total_cost dist sqrt2 facility_locations customers [(a, 40), (b, 40)]
            coords 30 fc cpk upl).2 = [(a, none), (b, none)] ∧
        (calculate_total_cost dist sqrt2 facility_locations customers [(a, 40), (b, 40)]
            coords 30 fc cpk upl).1 = 2000000 ∧
        (1000000 : ℚ) ≤ (calculate_total_cost dist sqrt2 facility_locations customers
            [(a, 40), (b, 40)] coords 30 fc cpk upl).1) ∧
    (∀ (dist : ℚ × ℚ → ℚ × ℚ → ℚ) (sqrt2 : ℚ → ℚ) (facility_locations : List (ℚ × ℚ))
      (customers : List String) (demands : List (String × ℚ))
      (coords : String → ℚ × ℚ) (cap fc cpk upl : ℚ),
      (∀ p ∈ demands, (0 : ℚ) ≤ p.2) →
      ∀ e ∈ demands.zip (calculate_total_cost dist sqrt2 facility_locations customers demands
          coords cap fc cpk upl).2, cap < e.1.2 → e.2.2 = none) := by
  constructor
  · intro dist sqrt2 a b coords facility_locations customers fc cpk upl hf
    rcases List.length_eq_one.mp hf with ⟨fl, rfl⟩
    have hnone : ∀ (c : String), facChoice dist [fl] coords 30 (fun _ => 0) (c, 40) = none := by
      intro c
      unfold facChoice
      have h1 : sortIdx (distancesFor dist [fl] (coords c)) = [0] := rfl
      rw [h1]
      simp only [tryAssign]
      rw [if_neg (by norm_num)]
    have hproc : ∀ (c : String) (st : CostState), st.usage = (fun _ => 0) →
        processCustomer dist [fl] coords 30 cpk upl st (c, 40) =
          ⟨st.usage, st.cost + 1000000, st.assigns ++ [(c, none)]⟩ := by
      intro c st hu
      unfold processCustomer
      rw [show facChoice dist [fl] coords 30 st.usage (c, 40) = none from by
        rw [hu]; exact hnone c]
    have hfold : [(a, (40 : ℚ)), (b, 40)].foldl (processCustomer dist [fl] coords 30 cpk upl)
        ⟨fun _ => 0, 0, []⟩ =
        ⟨fun _ => 0, 0 + 1000000 + 1000000, [(a, none), (b, none)]⟩ := by
      simp only [List.foldl_cons, List.foldl_nil]
      rw [hproc a ⟨fun _ => 0, 0, []⟩ rfl, hproc b _ rfl]
      rfl
    simp only [calculate_total_cost, hfold]
    simp only [List.length_cons, List.length_nil, show List.range 1 = [0] from rfl,
      List.map_cons, List.map_nil, List.foldl_cons, List.foldl_nil]
    rw [if_neg (lt_irrefl (0 : ℚ))]
    rw [if_neg (by simp)]
    refine ⟨trivial, by norm_num, by norm_num⟩
  · intro dist sqrt2 facility_locations customers demands coords cap fc cpk upl hd e he hcap
    have hA : (calculate_total_cost dist sqrt2 facility_locations customers demands coords
        cap fc cpk upl).2 =
        (assignTrace dist facility_locations coords cap (fun _ => 0)
          demands).map (fun e2 => (e2.1.1, e2.2)) := by
      simp only [calculate_total_cost]
      rw [fold_assigns]
      simp
    rw [hA, zip_trace_eq (trace_firsts dist facility_locations coords cap demands
      (fun _ => 0))] at he
    rcases List.mem_map.mp he with ⟨e2, he2, rfl⟩
    have h0 := trace_overdemand dist facility_locations coords cap demands (fun _ => 0) hd
      (fun _ => le_refl 0) e2 he2 hcap
    simpa using h0

/-- Counterexample to C5 as stated: in the 1-facility capacity-30 scenario
with two demand-40 customers, the number of unassigned customers in one
concrete evaluation is 2, not exactly one. -/
theorem c5_exactly_one_counterexample :
    ((calculate_total_cost (fun _ _ => 0) (fun q => q) [(0, 0)] [] [("A", 40), ("B", 40)]
      (fun _ => (0, 0)) 30 0 1 1).2.countP (fun a => a.2.isNone)) = 2 ∧
    ((calculate_total_cost (fun _ _ => 0) (fun q => q) [(0, 0)] [] [("A", 40), ("B", 40)]
      (fun _ => (0, 0)) 30 0 1 1).2.countP (fun a => a.2.isNone)) ≠ 1 := by
  with_unfolding_all decide

/-- Witness for C5 (amended) at a concrete input: the scenario instantiated
with a constant-0 distance function and facility list [(0,0)]. -/
theorem c5_overdemand_amended_witness :
    (calculate_total_cost (fun _ _ => 0) (fun q => q) [(0, 0)] [] [("A", 40), ("B", 40)]
        (fun _ => (0, 0)) 30 0 1 1).2 = [("A", none), ("B", none)] ∧
    (1000000 : ℚ) ≤ (calculate_total_cost (fun _ _ => 0) (fun q => q) [(0, 0)] []
        [("A", 40), ("B", 40)] (fun _ => (0, 0)) 30 0 1 1).1 :=
  ⟨(c5_overdemand_amended.1 (fun _ _ => 0) (fun q => q) "A" "B" (fun _ => (0, 0)) [(0, 0)]
      [] 0 1 1 (by decide)).1,
   (c5_overdemand_amended.1 (fun _ _ => 0) (fun q => q) "A" "B" (fun _ => (0, 0)) [(0, 0)]
      [] 0 1 1 (by decide)).2.2⟩

/-- C1: for every run with at least one customer, at least one facility and
positive capacity, the best_score recorded in the iteration history of
optimize_facility_locations_pso is non-increasing from each entry to the
next (the recorded global_best_score only ever decreases, because personal
and global bests are overwritten only by strictly lower-cost candidates). -/
theorem c1_history_monotone (dist : ℚ × ℚ → ℚ × ℚ → ℚ) (sqrt2 : ℚ → ℚ)
    (rand : Nat → Nat → Pos × Pos) (initParticles initVelocities : Nat → Pos)
    (timeUp : Nat → Bool) (customers_df : List Customer) (n_facilities : Nat)
    (facility_capacity fixed_cost cost_per_km units_per_load : ℚ)
    (n_particles n_iterations : Nat)
    (inertia_weight cognitive_coefficient social_coefficient : ℚ)
    (h1 : customers_df ≠ []) (h2 : 0 < n_facilities) (h3 : 0 < facility_capacity) :
    List.Chain' (fun a b => b.2 ≤ a.2)
      (optimize_facility_locations_pso dist sqrt2 rand initParticles initVelocities timeUp
        customers_df n_facilities facility_capacity fixed_cost cost_per_km units_per_load
        n_particles n_iterations inertia_weight cognitive_coefficient
        social_coefficient).history := by
  simp only [optimize_facility_locations_pso]
  refine List.Pairwise.chain' ?_
  refine (psoLoop_preserve timeUp _ histInv (fun k st h => iterStep_histInv _ k st h)
    n_iterations 0 _ ⟨List.Pairwise.nil, ?_⟩).1
  intro e he
  simp at he

/-- Witness for C1 at a concrete input: one customer, one facility,
capacity 30, one particle, one iteration. -/
theorem c1_history_monotone_witness :
    (([⟨"A", 1, 0, 0⟩] : List Customer) ≠ []) ∧ (0 < 1) ∧ ((0 : ℚ) < 30) ∧
    List.Chain' (fun a b => b.2 ≤ a.2)
      (optimize_facility_locations_pso (fun _ _ => 0) (fun q => q) (fun _ _ => ([], []))
        (fun _ => [(0, 0)]) (fun _ => [(0, 0)]) (fun _ => false) [⟨"A", 1, 0, 0⟩] 1 30 0 1 1
        1 1 1 2 2).history :=
  ⟨by simp, by decide, by decide,
    c1_history_monotone (fun _ _ => 0) (fun q => q) (fun _ _ => ([], []))
      (fun _ => [(0, 0)]) (fun _ => [(0, 0)]) (fun _ => false) [⟨"A", 1, 0, 0⟩] 1 30 0 1 1
      1 1 1 2 2 (by simp) (by decide) (by decide)⟩

/-- C9 (amended): the working inertia weight is updated by the rule
inertia = max(0.4, inertia * 0.99) exactly once per executed iteration, so
whenever at least one iteration has completed beyond the state's starting
count, the loop's inertia equals max(0.4, starting_inertia * 0.99^j) with j
the number of iterations completed since, and in particular it is bounded
below by 0.4 from the first completed iteration onward; it is non-increasing
whenever the starting inertia is at least 0.4. (The original claim's closed
form for ALL k fails at k = 0 when inertia_weight < 0.4, where the working
weight is still the unmodified initial value — see the counterexample.) -/
theorem c9_inertia_decay_amended (P : PSOParams) (tu : Nat → Bool) (n k : Nat)
    (st : PSOState) (hk : st.completed = k) :
    ((iterStep P k st).inertia = max 0.4 (st.inertia * 0.99)) ∧
    (k < (psoLoop tu (iterStep P) n k st).completed →
      (psoLoop tu (iterStep P) n k st).inertia =
        max 0.4 (st.inertia * 0.99 ^ ((psoLoop tu (iterStep P) n k st).completed - k))) ∧
    (k < (psoLoop tu (iterStep P) n k st).completed →
      0.4 ≤ (psoLoop tu (iterStep P) n k st).inertia) ∧
    (0.4 ≤ st.inertia → (psoLoop tu (iterStep P) n k st).inertia ≤ st.inertia) := by
  rcases psoLoop_completed_inertia tu (iterStep P) (fun k2 st2 => iterStep_completed P k2 st2)
    (fun k2 st2 => iterStep_inertia P k2 st2) n k st hk with ⟨h0, hle, hub, hform⟩
  refine ⟨iterStep_inertia P k st, hform, ?_, ?_⟩
  · intro hlt
    rw [hform hlt]
    exact le_max_left _ _
  · intro hw
    by_cases hc : k < (psoLoop tu (iterStep P) n k st).completed
    · rw [hform hc]
      apply max_le hw
      have hw0 : (0 : ℚ) ≤ st.inertia := le_trans (by norm_num) hw
      have hp1 : (0.99 : ℚ) ^ ((psoLoop tu (iterStep P) n k st).completed - k) ≤ 1 :=
        pow_le_one₀ (by norm_num) (by norm_num)
      exact mul_le_of_le_one_right hw0 hp1
    · have hc2 : (psoLoop tu (iterStep P) n k st).completed = k := by omega
      rw [h0 hc2]

/-- Counterexample to C9 as stated: a run that completes 0 iterations with
initial inertia_weight 1/5 keeps the working inertia at 1/5, while the
claimed closed form max(0.4, (1/5) * 0.99^0) evaluates to 0.4. -/
theorem c9_closed_form_counterexample :
    (psoLoop (fun _ => false) (iterStep idleP) 0 0 idleSt).completed = 0 ∧
    (psoLoop (fun _ => false) (iterStep idleP) 0 0 idleSt).inertia = 1 / 5 ∧
    (psoLoop (fun _ => false) (iterStep idleP) 0 0 idleSt).inertia ≠
      max 0.4 ((1 / 5) * (0.99 : ℚ) ^
        ((psoLoop (fun _ => false) (iterStep idleP) 0 0 idleSt).completed)) := by
  with_unfolding_all decide

/-- Witness for C9 (amended) at a concrete input: the idle run state with
inertia 1/5 and zero completed iterations, fuel 1. -/
theorem c9_inertia_decay_amended_witness :
    (idleSt.completed = 0) ∧
    (((iterStep idleP 0 idleSt).inertia = max 0.4 (idleSt.inertia * 0.99)) ∧
     (0 < (psoLoop (fun _ => false) (iterStep idleP) 1 0 idleSt).completed →
       (psoLoop (fun _ => false) (iterStep idleP) 1 0 idleSt).inertia =
         max 0.4 (idleSt.inertia * 0.99 ^
           ((psoLoop (fun _ => false) (iterStep idleP) 1 0 idleSt).completed - 0))) ∧
     (0 < (psoLoop (fun _ => false) (iterStep idleP) 1 0 idleSt).completed →
       0.4 ≤ (psoLoop (fun _ => false) (iterStep idleP) 1 0 idleSt).inertia) ∧
     (0.4 ≤ idleSt.inertia →
       (psoLoop (fun _ => false) (iterStep idleP) 1 0 idleSt).inertia ≤ idleSt.inertia)) :=
  ⟨rfl, c9_inertia_decay_amended idleP (fun _ => false) 1 0 idleSt rfl⟩

theorem psoLoop_break (tu : Nat → Bool) (step : Nat → PSOState → PSOState)
    (n k : Nat) (st : PSOState) (h : n = 0 ∨ tu k = true) :
    psoLoop tu step n k st = st := by
  cases n with
  | zero => rfl
  | succ m =>
    rcases h with h1 | h2
    · exact absurd h1 (Nat.succ_ne_zero m)
    · unfold psoLoop
      rw [if_pos h2]

theorem psoLoop_completed_le (tu : Nat → Bool) (P : PSOParams) (n : Nat) (st : PSOState)
    (h : st.completed = 0) : (psoLoop tu (iterStep P) n 0 st).completed ≤ n := by
  have h2 := (psoLoop_completed_inertia tu (iterStep P) (fun a b => iterStep_completed P a b)
    (fun a b => iterStep_inertia P a b) n 0 st h).2.2.1
  omega

/-- C8: when n_iterations = 0, or the wall-clock budget is already elapsed
at the first iteration check, optimize_facility_locations_pso returns
completed_iterations = 0, an empty iteration history, a total_cost equal to
the minimum of the initial personal-best scores, and facility_locations
equal to the records of the initial particle achieving that minimum (the
first such, as np.argmin returns the first minimizer); and in all cases
completed_iterations is at most n_iterations. -/
theorem c8_zero_iterations (dist : ℚ × ℚ → ℚ × ℚ → ℚ) (sqrt2 : ℚ → ℚ)
    (rand : Nat → Nat → Pos × Pos) (initParticles initVelocities : Nat → Pos)
    (timeUp : Nat → Bool) (customers_df : List Customer) (n_facilities : Nat)
    (facility_capacity fixed_cost cost_per_km units_per_load : ℚ)
    (n_particles n_iterations : Nat)
    (inertia_weight cognitive_coefficient social_coefficient : ℚ)
    (hp : 1 ≤ n_particles) :
    ((n_iterations = 0 ∨ timeUp 0 = true) →
      (optimize_facility_locations_pso dist sqrt2 rand initParticles initVelocities timeUp
        customers_df n_facilities facility_capacity fixed_cost cost_per_km units_per_load
        n_particles n_iterations inertia_weight cognitive_coefficient
        social_coefficient).completed_iterations = 0 ∧
      (optimize_facility_locations_pso dist sqrt2 rand initParticles initVelocities timeUp
        customers_df n_facilities facility_capacity fixed_cost cost_per_km units_per_load
        n_particles n_iterations inertia_weight cognitive_coefficient
        social_coefficient).history = [] ∧
      (optimize_facility_locations_pso dist sqrt2 rand initParticles initVelocities timeUp
        customers_df n_facilities facility_capacity fixed_cost cost_per_km units_per_load
        n_particles n_iterations inertia_weight cognitive_coefficient
        social_coefficient).total_cost =
        minD ((List.range n_particles).map (fun i =>
          costOfP (mkP dist sqrt2 rand timeUp customers_df facility_capacity fixed_cost
            cost_per_km units_per_load n_particles cognitive_coefficient social_coefficient)
            (initParticles i))) ∧
      (optimize_facility_locations_pso dist sqrt2 rand initParticles initVelocities timeUp
        customers_df n_facilities facility_capacity fixed_cost cost_per_km units_per_load
        n_particles n_iterations inertia_weight cognitive_coefficient
        social_coefficient).facility_locations =
        mkFacLocs 0 (initParticles (argminIdx (fun i =>
          costOfP (mkP dist sqrt2 rand timeUp customers_df facility_capacity fixed_cost
            cost_per_km units_per_load n_particles cognitive_coefficient social_coefficient)
            (initParticles i)) n_particles))) ∧
    (optimize_facility_locations_pso dist sqrt2 rand initParticles initVelocities timeUp
      customers_df n_facilities facility_capacity fixed_cost cost_per_km units_per_load
      n_particles n_iterations inertia_weight cognitive_coefficient
      social_coefficient).completed_iterations ≤ n_iterations := by
  constructor
  · intro h
    simp only [optimize_facility_locations_pso]
    rw [psoLoop_break timeUp _ n_iterations 0 _ h]
    refine ⟨rfl, rfl, ?_, rfl⟩
    exact argminIdx_eq_minD (fun i =>
      costOfP (mkP dist sqrt2 rand timeUp customers_df facility_capacity fixed_cost
        cost_per_km units_per_load n_particles cognitive_coefficient social_coefficient)
        (initParticles i)) hp
  · simp only [optimize_facility_locations_pso]
    exact psoLoop_completed_le timeUp _ n_iterations _ rfl

/-- Witness for C8 at a concrete input: one customer, one particle at (0,0),
zero iterations, never-elapsed clock. -/
theorem c8_zero_iterations_witness :
    (1 ≤ 1) ∧
    (((0 = 0 ∨ (fun _ : Nat => false) 0 = true) →
      (optimize_facility_locations_pso (fun _ _ => 0) (fun q => q) (fun _ _ => ([], []))
        (fun _ => [(0, 0)]) (fun _ => [(0, 0)]) (fun _ => false) [⟨"A", 1, 0, 0⟩] 1 30 0 1 1
        1 0 1 2 2).completed_iterations = 0 ∧
      (optimize_facility_locations_pso (fun _ _ => 0) (fun q => q) (fun _ _ => ([], []))
        (fun _ => [(0, 0)]) (fun _ => [(0, 0)]) (fun _ => false) [⟨"A", 1, 0, 0⟩] 1 30 0 1 1
        1 0 1 2 2).history = [] ∧
      (optimize_facility_locations_pso (fun _ _ => 0) (fun q => q) (fun _ _ => ([], []))
        (fun _ => [(0, 0)]) (fun _ => [(0, 0)]) (fun _ => false) [⟨"A", 1, 0, 0⟩] 1 30 0 1 1
        1 0 1 2 2).total_cost =
        minD ((List.range 1).map (fun i =>
          costOfP (mkP (fun _ _ => 0) (fun q => q) (fun _ _ => ([], [])) (fun _ => false)
            [⟨"A", 1, 0, 0⟩] 30 0 1 1 1 2 2) ((fun _ => [(0, 0)]) i))) ∧
      (optimize_facility_locations_pso (fun _ _ => 0) (fun q => q) (fun _ _ => ([], []))
        (fun _ => [(0, 0)]) (fun _ => [(0, 0)]) (fun _ => false) [⟨"A", 1, 0, 0⟩] 1 30 0 1 1
        1 0 1 2 2).facility_locations =
        mkFacLocs 0 ((fun _ => [(0, 0)]) (argminIdx (fun i =>
          costOfP (mkP (fun _ _ => 0) (fun q => q) (fun _ _ => ([], [])) (fun _ => false)
            [⟨"A", 1, 0, 0⟩] 30 0 1 1 1 2 2) ((fun _ => [(0, 0)]) i)) 1))) ∧
    (optimize_facility_locations_pso (fun _ _ => 0) (fun q => q) (fun _ _ => ([], []))
      (fun _ => [(0, 0)]) (fun _ => [(0, 0)]) (fun _ => false) [⟨"A", 1, 0, 0⟩] 1 30 0 1 1
      1 0 1 2 2).completed_iterations ≤ 0) :=
  ⟨by decide,
    c8_zero_iterations (fun _ _ => 0) (fun q => q) (fun _ _ => ([], [])) (fun _ => [(0, 0)])
      (fun _ => [(0, 0)]) (fun _ => false) [⟨"A", 1, 0, 0⟩] 1 30 0 1 1 1 0 1 2 2 (by decide)⟩

/-- C6: every facility coordinate in the result of
optimize_facility_locations_pso lies within the customer bounding box
inclusive — each returned latitude between the minimum and maximum customer
latitude and each returned longitude between the minimum and maximum
customer longitude — provided there is at least one customer, at least one
particle, and the randomly sampled initial particles lie inside the box
(np.random.uniform(low, high) draws within [low, high]); every position
update is clamped back into the box and the global best is always one of
the (initial or clamped) personal bests. -/
theorem c6_within_bounding_box (dist : ℚ × ℚ → ℚ × ℚ → ℚ) (sqrt2 : ℚ → ℚ)
    (rand : Nat → Nat → Pos × Pos) (initParticles initVelocities : Nat → Pos)
    (timeUp : Nat → Bool) (customers_df : List Customer) (n_facilities : Nat)
    (facility_capacity fixed_cost cost_per_km units_per_load : ℚ)
    (n_particles n_iterations : Nat)
    (inertia_weight cognitive_coefficient social_coefficient : ℚ)
    (h1 : customers_df ≠ []) (h2 : 1 ≤ n_particles)
    (h3 : ∀ i, i < n_particles → inBox (latMin customers_df) (latMax customers_df)
      (lonMin customers_df) (lonMax customers_df) (initParticles i)) :
    ∀ e ∈ (optimize_facility_locations_pso dist sqrt2 rand initParticles initVelocities
        timeUp customers_df n_facilities facility_capacity fixed_cost cost_per_km
        units_per_load n_particles n_iterations inertia_weight cognitive_coefficient
        social_coefficient).facility_locations,
      latMin customers_df ≤ e.2.1 ∧ e.2.1 ≤ latMax customers_df ∧
      lonMin customers_df ≤ e.2.2 ∧ e.2.2 ≤ lonMax customers_df := by
  intro e he
  simp only [optimize_facility_locations_pso] at he
  have hq := mkFacLocs_mem _ 0 e he
  refine gbestPosOf_inBox (mkP dist sqrt2 rand timeUp customers_df facility_capacity
    fixed_cost cost_per_km units_per_load n_particles cognitive_coefficient
    social_coefficient) _ ?_ e.2 hq
  refine psoLoop_preserve timeUp _ (boxInv _) (fun k st h => iterStep_boxInv
    (mkP dist sqrt2 rand timeUp customers_df facility_capacity fixed_cost cost_per_km
      units_per_load n_particles cognitive_coefficient social_coefficient) h2
    (latMin_le_latMax h1) (lonMin_le_lonMax h1) k st h) n_iterations 0 _ ⟨?_, ?_, ?_⟩
  · intro i hi
    exact h3 i hi
  · intro j hj
    simp only [Sum.inl.injEq] at hj
    rw [← hj]
    exact argminIdx_lt _ h2
  · intro p hp2
    exact absurd hp2 (by simp)

/-- Witness for C6 at a concrete input: one customer at (0,0), one particle
initialized at (0,0) (the whole box is the single point (0,0)). -/
theorem c6_within_bounding_box_witness :
    (([⟨"A", 1, 0, 0⟩] : List Customer) ≠ []) ∧ (1 ≤ 1) ∧
    (∀ i, i < 1 → inBox (latMin [⟨"A", 1, 0, 0⟩]) (latMax [⟨"A", 1, 0, 0⟩])
      (lonMin [⟨"A", 1, 0, 0⟩]) (lonMax [⟨"A", 1, 0, 0⟩]) ((fun _ => [(0, 0)]) i)) ∧
    (∀ e ∈ (optimize_facility_locations_pso (fun _ _ => 0) (fun q => q) (fun _ _ => ([], []))
        (fun _ => [(0, 0)]) (fun _ => [(0, 0)]) (fun _ => false) [⟨"A", 1, 0, 0⟩] 1 30 0 1 1
        1 1 1 2 2).facility_locations,
      latMin [⟨"A", 1, 0, 0⟩] ≤ e.2.1 ∧ e.2.1 ≤ latMax [⟨"A", 1, 0, 0⟩] ∧
      lonMin [⟨"A", 1, 0, 0⟩] ≤ e.2.2 ∧ e.2.2 ≤ lonMax [⟨"A", 1, 0, 0⟩]) :=
  ⟨by simp, by decide, by
      intro i _
      exact (by with_unfolding_all decide : inBox (latMin [⟨"A", 1, 0, 0⟩])
        (latMax [⟨"A", 1, 0, 0⟩]) (lonMin [⟨"A", 1, 0, 0⟩]) (lonMax [⟨"A", 1, 0, 0⟩])
        [(0, 0)]),
    c6_within_bounding_box (fun _ _ => 0) (fun q => q) (fun _ _ => ([], []))
      (fun _ => [(0, 0)]) (fun _ => [(0, 0)]) (fun _ => false) [⟨"A", 1, 0, 0⟩] 1 30 0 1 1
      1 1 1 2 2 (by simp) (by decide)
      (by
      intro i _
      exact (by with_unfolding_all decide : inBox (latMin [⟨"A", 1, 0, 0⟩])
        (latMax [⟨"A", 1, 0, 0⟩]) (lonMin [⟨"A", 1, 0, 0⟩]) (lonMax [⟨"A", 1, 0, 0⟩])
        [(0, 0)]))⟩

/-- C4 (code bug): within a sweep the particles do NOT all read the
global-best snapshot fixed before the sweep began. At initialization
global_best_position = personal_best_positions[global_best_index] is a numpy
view, so when particle 0 (the global-best particle) improves its personal
best mid-sweep, the in-place overwrite is visible through the view to every
later particle's social term. In the concrete run below, the global best
read before the sweep is [(0,0)]; after particle 0's update it reads
[(1/2,1/2)]; particle 1 therefore moves to [(1/2,1/2)] under the code's
sweep, whereas the spec-mandated immutable-snapshot sweep sends it to
[(0,0)] — the two sweeps differ. -/
theorem c4_global_best_view_aliasing :
    gbestPosOf c4st = [(0, 0)] ∧
    gbestPosOf (particleStep c4P 0 c4st 0) = [(1 / 2, 1 / 2)] ∧
    (sweep c4P 0 c4st).particles 1 = [(1 / 2, 1 / 2)] ∧
    (sweepSnapshot c4P 0 c4st).particles 1 = [(0, 0)] ∧
    (sweep c4P 0 c4st).particles 1 ≠ (sweepSnapshot c4P 0 c4st).particles 1 := by
  with_unfolding_all decide
